import Mathlib

/-!
Verification of the chunked code-conversion pipeline in
`Backend/code_converter.py` and the response-salvage helper in
`Backend/app.py` of the Cobol-Java-Backend repository.

Strings are modelled as `List Char` (Python `str`); machine text
operations (`str.strip`, `str.split('\n')`, `'\n'.join`, `str.count`,
regex scans used by the source) are translated into executable Lean
functions.  The external model calls (OpenAI chat completions) are
abstracted as function/outcome parameters, exactly at the call
boundaries of the source.
-/

/-- Characters treated as whitespace by Python `str.strip()` / regex `\s`
(ASCII part; the source texts involved are ASCII). -/
def pyIsSpace (c : Char) : Bool :=
  c = ' ' || c = '\t' || c = '\n' || c = '\r' || c = '\x0b' || c = '\x0c'

/-- Opening curly brace, written via its code point. -/
def lbrace : Char := '\x7b'

/-- Closing curly brace, written via its code point. -/
def rbrace : Char := '\x7d'

/-- Python `str.lstrip()` (whitespace form). -/
def pyStripLeft (l : List Char) : List Char := l.dropWhile pyIsSpace

/-- Python `str.rstrip()` (whitespace form). -/
def pyStripRight (l : List Char) : List Char :=
  (l.reverse.dropWhile pyIsSpace).reverse

/-- Python `str.strip()` (whitespace form). -/
def pyStrip (l : List Char) : List Char := pyStripRight (pyStripLeft l)

/-- Python `text.split('\n')`: split on every newline, keeping empty
segments; the empty string yields one empty segment. -/
def splitNl : List Char → List (List Char)
  | [] => [[]]
  | c :: cs =>
    if c = '\n' then [] :: splitNl cs
    else
      match splitNl cs with
      | [] => [[c]]
      | t :: ts => (c :: t) :: ts

/-- Python `'\n'.join(lines)`. -/
def joinNl : List (List Char) → List Char
  | [] => []
  | [l] => l
  | l :: ls => l ++ '\n' :: joinNl ls

/-- Target language of the conversion (`_merge_oop_code` / `_polish_code`
specialize only to Java and C#). -/
inductive TL where
  | java
  | csharp
deriving DecidableEq

/-- Leading part of the `re.sub` replacement template for empty catch
blocks in `_polish_code` (code_converter.py lines 848-853). -/
def catchReplA : List Char := "catch (".data

/-- Middle part of the empty-catch replacement template (between the two
`\1` group references). -/
def catchReplB (tl : TL) : List Char :=
  match tl with
  | .java => ") \x7b\n    // Error handling\n    System.err.println(\"Error caught: \" + ".data
  | .csharp => ") \x7b\n    // Error handling\n    Console.WriteLine(\"Error caught: \" + ".data

/-- Trailing part of the empty-catch replacement template. -/
def catchReplC (tl : TL) : List Char :=
  match tl with
  | .java => ".getMessage());\n\x7d".data
  | .csharp => ".Message);\n\x7d".data

/-- Full replacement text for one matched empty catch block with caught
parameter text `param` (the template references the group `\1` twice). -/
def catchRepl (tl : TL) (param : List Char) : List Char :=
  catchReplA ++ param ++ catchReplB tl ++ param ++ catchReplC tl

/-- Attempt to match the Python regex `catch\s*\(([^)]*)\)\s*{\s*}` at the
head of `cs`.  The pattern is deterministic (each `\s*` / `[^)]*` is
bounded by a following literal), so a direct scanner is an exact
translation.  Returns the captured group and the remainder after the
match. -/
def matchEmptyCatchAt? (cs : List Char) : Option (List Char × List Char) :=
  match cs with
  | c1 :: c2 :: c3 :: c4 :: c5 :: r0 =>
    if c1 = 'c' ∧ c2 = 'a' ∧ c3 = 't' ∧ c4 = 'c' ∧ c5 = 'h' then
      match r0.dropWhile pyIsSpace with
      | c6 :: r2 =>
        if c6 = '(' then
          let param := r2.takeWhile (fun c => c != ')')
          match r2.dropWhile (fun c => c != ')') with
          | c7 :: r4 =>
            if c7 = ')' then
              match r4.dropWhile pyIsSpace with
              | c8 :: r6 =>
                if c8 = lbrace then
                  match r6.dropWhile pyIsSpace with
                  | c9 :: r8 => if c9 = rbrace then some (param, r8) else none
                  | [] => none
                else none
              | [] => none
            else none
          | [] => none
        else none
      | [] => none
    else none
  | _ => none

/-- One pass of Python `re.sub(r'catch\s*\(([^)]*)\)\s*{\s*}', repl, text)`:
scan left to right; at each position either replace a match (continuing
after it, as `re.sub` replaces non-overlapping occurrences) or keep the
character.  `fuel` bounds recursion; `fuel = length` always suffices
because a match consumes at least one character. -/
def subEmptyCatchF (tl : TL) : Nat → List Char → List Char
  | _, [] => []
  | 0, cs => cs
  | fuel+1, c :: cs =>
    match matchEmptyCatchAt? (c :: cs) with
    | some (param, rest) => catchRepl tl param ++ subEmptyCatchF tl fuel rest
    | none => c :: subEmptyCatchF tl fuel cs

/-- The empty-catch rewrite of `_polish_code` (lines 848-853). -/
def subEmptyCatch (tl : TL) (cs : List Char) : List Char :=
  subEmptyCatchF tl cs.length cs

/-- Captured groups of the matches that `subEmptyCatch` replaces, in
scan order. -/
def subParamsF : Nat → List Char → List (List Char)
  | _, [] => []
  | 0, _ => []
  | fuel+1, c :: cs =>
    match matchEmptyCatchAt? (c :: cs) with
    | some (param, rest) => param :: subParamsF fuel rest
    | none => subParamsF fuel cs

/-- Captured groups of the empty-catch matches of a text. -/
def subParams (cs : List Char) : List (List Char) := subParamsF cs.length cs

/-- Python `len(re.findall(r'catch\s*\(([^)]*)\)\s*{\s*}', code))`:
number of non-overlapping empty-catch matches. -/
def countEmptyCatchF : Nat → List Char → Nat
  | _, [] => 0
  | 0, _ => 0
  | fuel+1, c :: cs =>
    match matchEmptyCatchAt? (c :: cs) with
    | some (_, rest) => countEmptyCatchF fuel rest + 1
    | none => countEmptyCatchF fuel cs

/-- Count of empty catch blocks, as used by `_validate_code`,
`_quick_validate` and `_validate_merged_code`. -/
def countEmptyCatch (cs : List Char) : Nat := countEmptyCatchF cs.length cs

/-- Brace-deficit append step of `_polish_code` (lines 841-845): when
openers exceed closers, the deficit of closing braces is appended on a
fresh final line. -/
def appendMissingBraces (code : List Char) : List Char :=
  if code.count rbrace < code.count lbrace then
    code ++ '\n' :: List.replicate (code.count lbrace - code.count rbrace) rbrace
  else code

/-- Python `'    ' * indent_level`. -/
def indentPad (lvl : Nat) : List Char := List.replicate (4 * lvl) ' '

/-- Python `stripped.endswith('{')` (false on the empty string). -/
def endsWithLbrace (s : List Char) : Bool :=
  match s.getLast? with
  | some c => c = lbrace
  | none => false

/-- Python `stripped.startswith('}')` (false on the empty string). -/
def startsWithRbrace (s : List Char) : Bool :=
  match s.head? with
  | some c => c = rbrace
  | none => false

/-- Indentation re-flow loop of `_polish_code` (lines 856-873): each line
is stripped and re-prefixed with four spaces per depth level; a line
ending in `{` increments the level after emission, a line starting with
`}` decrements it (floored at zero, which Nat subtraction gives) before
emission. -/
def indentLines (lvl : Nat) : List (List Char) → List (List Char)
  | [] => []
  | l :: ls =>
    let s := pyStrip l
    if endsWithLbrace s then (indentPad lvl ++ s) :: indentLines (lvl + 1) ls
    else if startsWithRbrace s then (indentPad (lvl - 1) ++ s) :: indentLines (lvl - 1) ls
    else (indentPad lvl ++ s) :: indentLines lvl ls

/-- Split, re-indent every line, re-join (lines 856-873). -/
def reindent (cs : List Char) : List Char := joinNl (indentLines 0 (splitNl cs))

/-- The automatic (no external call) repair part of `_polish_code`
(code_converter.py lines 833-873): early return on empty or
whitespace-only input, then brace-deficit append, empty-catch fill, and
indentation re-flow, in source order.  The model-assisted rewrite that
follows in `_polish_code` (lines 876-940) is the separate external
`polish` pass and is abstracted elsewhere. -/
def polish_code_auto (tl : TL) (code : List Char) : List Char :=
  if code = [] ∨ pyStrip code = [] then code
  else reindent (subEmptyCatch tl (appendMissingBraces code))

/-- Python regex `\w` (ASCII part): letters, digits, underscore. -/
def isWordChar (c : Char) : Bool := c.isAlphanum || c == '_'

/-- Match `try\s*{` at the head (the `\b` of `\btry\s*{` is checked by the
caller, which tracks the previous character). -/
def matchTryBraceAt? (cs : List Char) : Option (List Char) :=
  match cs with
  | 't' :: 'r' :: 'y' :: r =>
    match r.dropWhile pyIsSpace with
    | c :: r2 => if c = lbrace then some r2 else none
    | [] => none
  | _ => none

/-- Python `len(re.findall(r'\btry\s*{', code))`.  The boolean argument
records whether the previous character was a word character (no word
boundary). -/
def countTryBraceF : Nat → Bool → List Char → Nat
  | 0, _, _ => 0
  | _, _, [] => 0
  | fuel+1, prevWord, c :: cs =>
    if !prevWord then
      match matchTryBraceAt? (c :: cs) with
      | some rest => countTryBraceF fuel false rest + 1
      | none => countTryBraceF fuel (isWordChar c) cs
    else countTryBraceF fuel (isWordChar c) cs

def countTryBrace (cs : List Char) : Nat := countTryBraceF cs.length false cs

/-- Match `catch\s*\(` at the head (for `\bcatch\s*\(`). -/
def matchCatchParenAt? (cs : List Char) : Option (List Char) :=
  match cs with
  | 'c' :: 'a' :: 't' :: 'c' :: 'h' :: r =>
    match r.dropWhile pyIsSpace with
    | c :: r2 => if c = '(' then some r2 else none
    | [] => none
  | _ => none

/-- Python `len(re.findall(r'\bcatch\s*\(', code))`. -/
def countCatchParenF : Nat → Bool → List Char → Nat
  | 0, _, _ => 0
  | _, _, [] => 0
  | fuel+1, prevWord, c :: cs =>
    if !prevWord then
      match matchCatchParenAt? (c :: cs) with
      | some rest => countCatchParenF fuel false rest + 1
      | none => countCatchParenF fuel (isWordChar c) cs
    else countCatchParenF fuel (isWordChar c) cs

def countCatchParen (cs : List Char) : Nat := countCatchParenF cs.length false cs

/-- Literal-prefix matcher: consume `kw` if it is a prefix. -/
def matchKw (kw cs : List Char) : Option (List Char) :=
  if kw.isPrefixOf cs then some (cs.drop kw.length) else none

/-- The `(class|interface|enum)` alternation, in regex order. -/
def matchClassKw (r : List Char) : Option (List Char) :=
  match matchKw "class".data r with
  | some r2 => some r2
  | none =>
    match matchKw "interface".data r with
    | some r2 => some r2
    | none => matchKw "enum".data r

/-- The `\s+\w+` tail of the class-start pattern: at least one whitespace
character, then a maximal nonempty word-character run. -/
def matchWsWord (r : List Char) : Option (List Char) :=
  match r with
  | c :: r3 =>
    if pyIsSpace c then
      match r3.dropWhile pyIsSpace with
      | d :: r5 => if isWordChar d then some (r5.dropWhile isWordChar) else none
      | [] => none
    else none
  | [] => none

/-- `\s*(class|interface|enum)\s+\w+` from a given position. -/
def afterMod (r : List Char) : Option (List Char) :=
  match matchClassKw (r.dropWhile pyIsSpace) with
  | some r2 => matchWsWord r2
  | none => none

/-- Match `(public|private|protected|)\s*(class|interface|enum)\s+\w+`
at the head; the three named modifiers are mutually exclusive prefixes,
and the empty alternative is tried when they are absent or fail. -/
def matchClassStartAt? (cs : List Char) : Option (List Char) :=
  let withMod : Option (List Char) :=
    match matchKw "public".data cs with
    | some r => afterMod r
    | none =>
      match matchKw "private".data cs with
      | some r => afterMod r
      | none =>
        match matchKw "protected".data cs with
        | some r => afterMod r
        | none => none
  match withMod with
  | some e => some e
  | none => afterMod cs

/-- Python `len(re.findall(r'(public|private|protected|)\s*(class|interface|enum)\s+\w+', code))`. -/
def countClassStartsF : Nat → List Char → Nat
  | 0, _ => 0
  | _, [] => 0
  | fuel+1, c :: cs =>
    match matchClassStartAt? (c :: cs) with
    | some rest => countClassStartsF fuel rest + 1
    | none => countClassStartsF fuel cs

def countClassStarts (cs : List Char) : Nat := countClassStartsF cs.length cs

/-- Close a `}\s*(\/\/.*)?$` match at the current position: an optional
`//` comment running to the line end, or the multiline `$` (end of text
or just before a newline). -/
def matchEndFinish (r : List Char) : Option (List Char) :=
  if ("//".data).isPrefixOf r then some (r.dropWhile (fun c => c != '\n'))
  else
    match r with
    | [] => some []
    | c :: _ => if c = '\n' then some r else none

/-- Greedy `\s*` with backtracking for `}\s*(\/\/.*)?$`: prefer consuming
more whitespace; on failure retry the comment/`$` alternatives at the
current position. -/
def matchEndTail : List Char → Option (List Char)
  | [] => some []
  | c :: r =>
    if pyIsSpace c then
      match matchEndTail r with
      | some rest => some rest
      | none => matchEndFinish (c :: r)
    else matchEndFinish (c :: r)

/-- Match `}\s*(\/\/.*)?$` (multiline) at the head. -/
def matchClassEndAt? (cs : List Char) : Option (List Char) :=
  match cs with
  | c :: r => if c = rbrace then matchEndTail r else none
  | [] => none

/-- Python `len(re.findall(r'}\s*(\/\/.*)?$', code, re.MULTILINE))`. -/
def countClassEndsF : Nat → List Char → Nat
  | 0, _ => 0
  | _, [] => 0
  | fuel+1, c :: cs =>
    match matchClassEndAt? (c :: cs) with
    | some rest => countClassEndsF fuel rest + 1
    | none => countClassEndsF fuel cs

def countClassEnds (cs : List Char) : Nat := countClassEndsF cs.length cs

/-- The conversion-result dictionary shape used throughout
code_converter.py: `{"convertedCode", "conversionNotes",
"potentialIssues", "databaseUsed"}`.  One per chunk (a fragment result)
and one for the merged output. -/
structure ConvResult where
  convertedCode : List Char
  conversionNotes : String
  potentialIssues : List String
  databaseUsed : Bool
deriving DecidableEq

/-- Divider comment inserted by `_fallback_merge` before the code of
chunk `n` (1-based): `f"\n\n// ----- Chunk {i+1} -----\n\n"`. -/
def chunkDivider (n : Nat) : List Char := (s!"\n\n// ----- Chunk {n} -----\n\n").data

/-- Accumulator loop of `_fallback_merge` (code_converter.py lines
1204-1210): `i` is the 0-based chunk index, `acc` the string built so
far. -/
def fallback_merge_aux : Nat → List Char → List ConvResult → List Char
  | _, acc, [] => acc
  | i, acc, r :: rs =>
    let code := pyStrip r.convertedCode
    let acc' := if code = [] then acc
                else if acc = [] then code
                else acc ++ chunkDivider (i+1) ++ code
    fallback_merge_aux (i+1) acc' rs

/-- `_fallback_merge` (code_converter.py lines 1194-1212): concatenate
the stripped non-empty code blocks of the results, inserting a labeled
divider comment before every block after the first. -/
def fallback_merge (results : List ConvResult) : List Char :=
  fallback_merge_aux 0 [] results

/-- Specification-side description of the naive fallback concatenation:
the 0-indexed non-empty stripped code blocks, in order. -/
def labeledBlocks : Nat → List ConvResult → List (Nat × List Char)
  | _, [] => []
  | i, r :: rs =>
    let code := pyStrip r.convertedCode
    if code = [] then labeledBlocks (i+1) rs
    else (i, code) :: labeledBlocks (i+1) rs

/-- Specification-side naive concatenation: first non-empty block, then
each further block preceded by its labeled divider. -/
def naiveConcat (results : List ConvResult) : List Char :=
  match labeledBlocks 0 results with
  | [] => []
  | (_, c) :: rest => c ++ rest.flatMap (fun p => chunkDivider (p.1 + 1) ++ p.2)

/-- Message of the brace check in `_quick_validate` (lines 947-950). -/
def mismatchedBracesMsg (oc cc : Nat) : String :=
  s!"Mismatched braces: {oc} opening vs {cc} closing"

/-- Message of the empty-catch check in `_quick_validate` (lines 952-955). -/
def emptyCatchesMsg (n : Nat) : String := s!"Found {n} empty catch blocks"

/-- `_quick_validate` (code_converter.py lines 942-957): brace balance
and empty catch blocks. -/
def quick_validate (code : List Char) : List String :=
  (if code.count lbrace ≠ code.count rbrace
   then [mismatchedBracesMsg (code.count lbrace) (code.count rbrace)] else [])
  ++ (if 0 < countEmptyCatch code
      then [emptyCatchesMsg (countEmptyCatch code)] else [])

/-- Magnitude of the brace mismatch that the validators report in their
"X opening vs Y closing" finding (zero when balanced). -/
def braceMismatchCount (code : List Char) : Nat :=
  (code.count lbrace - code.count rbrace) + (code.count rbrace - code.count lbrace)

def mergedMismatchMsg (oc cc : Nat) : String :=
  s!"Mismatched braces in merged code: {oc} opening vs {cc} closing"

def mergedTryCatchMsg (t c : Nat) : String :=
  s!"Incomplete exception handling in merged code: {t} try blocks but only {c} catch blocks"

def mergedEmptyCatchMsg (n : Nat) : String :=
  s!"Found {n} empty catch blocks in merged code"

def mergedClassMsg (s e : Nat) : String :=
  s!"Potentially incomplete class definitions: {s} class starts but only {e} endings"

/-- `_validate_merged_code` (code_converter.py lines 960-1004).  The
`None`/non-`str` guards of lines 971-976 are unreachable in this typed
model (the argument is always a string). -/
def validate_merged_code (tl : TL) (mergedCode : List Char) : List String :=
  (if mergedCode.count lbrace ≠ mergedCode.count rbrace
   then [mergedMismatchMsg (mergedCode.count lbrace) (mergedCode.count rbrace)] else [])
  ++ (if countCatchParen mergedCode < countTryBrace mergedCode
      then [mergedTryCatchMsg (countTryBrace mergedCode) (countCatchParen mergedCode)] else [])
  ++ (if 0 < countEmptyCatch mergedCode
      then [mergedEmptyCatchMsg (countEmptyCatch mergedCode)] else [])
  ++ (match tl with
      | .java =>
        if countClassEnds mergedCode < countClassStarts mergedCode
        then [mergedClassMsg (countClassStarts mergedCode) (countClassEnds mergedCode)] else []
      | .csharp => [])

/-- Issue recorded by `_merge_conversion_results` when `_merge_oop_code`
raises and the fallback merge is used (line 785). -/
def mergeFailureIssue (e : String) : String :=
  s!"Error during intelligent code merging: {e}. Used fallback merge method."

/-- Note inserted at position 0 by `_merge_conversion_results` (line 805). -/
def chunkedNote (n : Nat) : String :=
  s!"The original code was processed in {n} chunks due to its size and merged into a single codebase."

def chunkNoteOf (i : Nat) (notes : String) : String := s!"Chunk {i}: {notes}"

def chunkIssueOf (i : Nat) (issue : String) : String := s!"Chunk {i}: {issue}"

/-- `_merge_conversion_results` (code_converter.py lines 750-818) for the
Java/C# path.  The call to `_merge_oop_code` may raise; its outcome is
the `oopMerge` parameter (`.error e` models an exception with message
`e`, recovered by the `except` branch of lines 782-785).  The subsequent
`_polish_code` call performs an external model request, so the whole
polish pass is the `polish` parameter; every theorem below quantifies
over it. -/
def merge_conversion_results (tl : TL) (oopMerge : Except String (List Char))
    (polish : List Char → List Char) (results : List ConvResult) : ConvResult :=
  if results = [] then
    { convertedCode := [],
      conversionNotes := "No conversion results to merge",
      potentialIssues := ["No conversion was performed"],
      databaseUsed := false }
  else
    let databaseUsed := results.any (fun r => r.databaseUsed)
    let mergedPair : List Char × List String :=
      match oopMerge with
      | .ok c => (c, [])
      | .error e => (fallback_merge results, [mergeFailureIssue e])
    let mergedCode := polish mergedPair.1
    let chunkNotes := results.enum.filterMap fun p =>
      if p.2.conversionNotes ≠ "" then some (chunkNoteOf (p.1+1) p.2.conversionNotes) else none
    let chunkIssues := results.enum.flatMap fun p =>
      p.2.potentialIssues.map fun iss => chunkIssueOf (p.1+1) iss
    { convertedCode := mergedCode,
      conversionNotes := String.intercalate "\n\n" (chunkedNote results.length :: chunkNotes),
      potentialIssues := mergedPair.2 ++ chunkIssues ++ validate_merged_code tl mergedCode,
      databaseUsed := databaseUsed }

/-- Line-break characters recognized by Python `str.splitlines`. -/
def pyIsLineBreak (c : Char) : Bool :=
  c = '\n' || c = '\r' || c = '\x0b' || c = '\x0c' || c = '\x1c' || c = '\x1d' ||
  c = '\x1e' || c = '\x85' || c = '\u2028' || c = '\u2029'

/-- Python `str.splitlines()`: split at line boundaries (`\r\n` counts as
one boundary), with no trailing empty line. -/
def pySplitlines : List Char → List (List Char)
  | [] => []
  | '\r' :: '\n' :: cs => [] :: pySplitlines cs
  | c :: cs =>
    if pyIsLineBreak c then [] :: pySplitlines cs
    else
      match pySplitlines cs with
      | [] => [[c]]
      | t :: ts => (c :: t) :: ts

/-- Default `line_threshold` of `should_chunk_code` (line 1260). -/
def defaultLineThreshold : Nat := 24000

/-- `should_chunk_code` (code_converter.py lines 1260-1271):
`len(code.splitlines()) > line_threshold`. -/
def should_chunk_code (code : List Char) (lineThreshold : Nat) : Bool :=
  lineThreshold < (pySplitlines code).length

/-- Structure dictionary built by `_get_code_structure` (lines 390-398):
`{"structure", "classes", "package", "interfaces", "database_access",
"exception_strategy", "patterns"}`. -/
structure StructureInfo where
  structureText : String
  classes : List (List Char)
  package : Option (List Char)
  interfaces : List (List Char)
  database_access : Bool
  exception_strategy : String
  patterns : List String
deriving DecidableEq

/-- The default structure dictionary returned by the `except` branch of
`_get_code_structure` (lines 454-464). -/
def defaultStructureInfo : StructureInfo :=
  { structureText := "Could not determine code structure",
    classes := [],
    package := none,
    interfaces := [],
    database_access := false,
    exception_strategy := "standard",
    patterns := [] }

/-- Early-return result of `convert_code_chunks` for an empty chunk list
(lines 110-117). -/
def noChunksResult : ConvResult :=
  { convertedCode := [],
    conversionNotes := "Error: No code provided for conversion",
    potentialIssues := ["No source code was provided"],
    databaseUsed := false }

/-- The per-chunk context f-string of `convert_code_chunks` (lines
140-159); `i` is the 1-based chunk number, `n` the chunk count. -/
def chunkContext (i n : Nat) (structureText : String) : String :=
  "\n            This is chunk " ++ toString i ++ " of " ++ toString n ++
  " from the complete source code.\n            \n            IMPORTANT: Ensure your conversion aligns with this overall code structure:\n            "
  ++ structureText ++
  "\n            \n            When converting this chunk:\n            1. Follow the above structure for consistent class/method names\n            2. Include complete exception handling blocks\n            3. Properly close all resources in finally blocks\n            4. Ensure all methods have proper signatures and return types\n            5. Define all methods and classes completely - don\x27t leave implementation gaps\n            6. Avoid duplicating code that would be defined in other chunks\n            7. Ensure all imports are included for this chunk\n            \n            If you see incomplete code:\n            - Complete class definitions even if they appear partial\n            - Handle exception blocks properly - don\x27t leave them empty\n            - Complete any missing control flow statements (if/while/try)\n            "

/-- `convert_code_chunks` (code_converter.py lines 93-170).  External
boundaries are parameters: `convertSingle` is `_convert_single_chunk`
(model call; second argument is `additional_context`, defaulting to
`""` on the single-chunk path), `structureResult` is the outcome of the
`_get_code_structure` call of the two-phase path, and
`oopMerge`/`polish` are the `_merge_conversion_results` boundaries. -/
def convert_code_chunks (tl : TL)
    (convertSingle : List Char → String → ConvResult)
    (structureResult : StructureInfo)
    (oopMerge : Except String (List Char))
    (polish : List Char → List Char)
    (chunks : List (List Char)) : ConvResult :=
  match chunks with
  | [] => noChunksResult
  | [c] => convertSingle c ""
  | cs =>
    let conversionResults := cs.enum.map fun p =>
      convertSingle p.2 (chunkContext (p.1 + 1) cs.length structureResult.structureText)
    merge_conversion_results tl oopMerge polish conversionResults

/-- Match `\s+([A-Za-z0-9_]+)` and return the captured name with the
remainder. -/
def matchWsWordName (r : List Char) : Option (List Char × List Char) :=
  match r with
  | c :: r3 =>
    if pyIsSpace c then
      match r3.dropWhile pyIsSpace with
      | d :: r5 =>
        if isWordChar d then some (d :: r5.takeWhile isWordChar, r5.dropWhile isWordChar)
        else none
      | [] => none
    else none
  | [] => none

/-- Python `re.findall(kw + r'\s+([A-Za-z0-9_]+)', text)`: captured
names of all non-overlapping matches, scanning left to right. -/
def findKwNamesF (kw : List Char) : Nat → List Char → List (List Char)
  | 0, _ => []
  | _, [] => []
  | fuel+1, c :: cs =>
    match matchKw kw (c :: cs) with
    | some r =>
      match matchWsWordName r with
      | some pr => pr.1 :: findKwNamesF kw fuel pr.2
      | none => findKwNamesF kw fuel cs
    | none => findKwNamesF kw fuel cs

/-- Captured groups of `re.findall(r'class\s+([A-Za-z0-9_]+)', text)`
(line 401). -/
def findClassNames (cs : List Char) : List (List Char) :=
  findKwNamesF "class".data cs.length cs

/-- Captured groups of `re.findall(r'interface\s+([A-Za-z0-9_]+)', text)`
(line 415). -/
def findInterfaceNames (cs : List Char) : List (List Char) :=
  findKwNamesF "interface".data cs.length cs

/-- Case-insensitive literal prefix test (`re.IGNORECASE`); `kw` is given
in lowercase. -/
def isPrefixCI : List Char → List Char → Bool
  | [], _ => true
  | _ :: _, [] => false
  | k :: ks, c :: cs => (c.toLower == k) && isPrefixCI ks cs

/-- Character class `[a-z0-9_.]` under `re.IGNORECASE` (the same set as
the C# `[A-Za-z0-9_.]` variant). -/
def isPkgChar (c : Char) : Bool := c.isAlphanum || c == '_' || c == '.'

/-- Match `kw\s+([a-z0-9_.]+)` (case-insensitive) at the head, returning
the captured dotted name. -/
def matchPackageAt? (kw cs : List Char) : Option (List Char) :=
  if isPrefixCI kw cs then
    match cs.drop kw.length with
    | c :: r3 =>
      if pyIsSpace c then
        match r3.dropWhile pyIsSpace with
        | d :: r5 => if isPkgChar d then some (d :: r5.takeWhile isPkgChar) else none
        | [] => none
      else none
    | [] => none
  else none

/-- Python `re.search(kw + r'\s+([a-z0-9_.]+)', text, re.IGNORECASE)`:
captured group of the leftmost match (lines 405-412). -/
def searchPackageF (kw : List Char) : Nat → List Char → Option (List Char)
  | 0, _ => none
  | _, [] => none
  | fuel+1, c :: cs =>
    match matchPackageAt? kw (c :: cs) with
    | some name => some name
    | none => searchPackageF kw fuel cs

def searchPackage (kw cs : List Char) : Option (List Char) :=
  searchPackageF kw cs.length cs

/-- Python substring test `pat in text`. -/
def containsSub (pat : List Char) : List Char → Bool
  | [] => pat.isEmpty
  | c :: cs => pat.isPrefixOf (c :: cs) || containsSub pat cs

/-- Database-access keyword list of `_get_code_structure` (lines 419-421). -/
def dbKeywords : List String :=
  ["JDBC", "Connection", "PreparedStatement", "ResultSet",
   "SqlConnection", "SqlCommand", "DataReader", "EntityFramework",
   "JPA", "Repository", "DataSource"]

/-- Design-pattern keyword table of `_get_code_structure` (lines
428-438), in dict insertion order. -/
def patternKeywords : List (String × List String) :=
  [("Factory", ["Factory", "getInstance", "createInstance"]),
   ("Singleton", ["Singleton", "getInstance", "private constructor"]),
   ("Builder", ["Builder", "build()", ".build()"]),
   ("Strategy", ["Strategy", "algorithm", "behavior"]),
   ("Observer", ["Observer", "Observable", "notify", "subscribe"]),
   ("Repository", ["Repository", "DAO", "Data Access"]),
   ("Service", ["Service", "Manager", "Processor"]),
   ("MVC", ["Model", "View", "Controller"]),
   ("DTO", ["DTO", "Data Transfer Object"])]

/-- Pattern names whose keyword lists hit the text (lines 440-444). -/
def patternHits (content : List Char) : List String :=
  patternKeywords.filterMap fun p =>
    if p.2.any (fun k => containsSub k.data content) then some p.1 else none

/-- Python `str.lower()` (ASCII relevant part). -/
def toLowerL (cs : List Char) : List Char := cs.map Char.toLower

/-- The custom-exception test of lines 449-450. -/
def customExceptionHit (content : List Char) : Bool :=
  containsSub "custom exception".data (toLowerL content) ||
  containsSub "applicationexception".data (toLowerL content)

/-- Order-fixed model of Python `list(set(xs))`: duplicates collapsed,
first occurrences kept.  CPython's set iteration order is unspecified;
every property proved below depends only on membership and emptiness. -/
def dedupKeepFirstAux {α : Type} [DecidableEq α] (seen : List α) : List α → List α
  | [] => []
  | x :: xs =>
    if x ∈ seen then dedupKeepFirstAux seen xs
    else x :: dedupKeepFirstAux (x :: seen) xs

def dedupKeepFirst {α : Type} [DecidableEq α] (l : List α) : List α :=
  dedupKeepFirstAux [] l

/-- `_get_code_structure` (code_converter.py lines 359-464).  The
external chat-completions call is the `call` parameter: `.error e`
models any exception inside the `try` block (caught at line 454),
`.ok raw` the returned message content.  The parsing of lines 387-452
is translated scanner by scanner. -/
def get_code_structure (tl : TL) (call : Except String (List Char)) : StructureInfo :=
  match call with
  | .error _ => defaultStructureInfo
  | .ok raw =>
    let content := pyStrip raw
    { structureText := String.mk content,
      classes := dedupKeepFirst (findClassNames content),
      package :=
        match tl with
        | .java => searchPackage "package".data content
        | .csharp => searchPackage "namespace".data content,
      interfaces := dedupKeepFirst (findInterfaceNames content),
      database_access := dbKeywords.any (fun k => containsSub k.data content),
      exception_strategy := if customExceptionHit content then "custom" else "standard",
      patterns := dedupKeepFirst (patternHits content) }

/-- Per-class entry of the `classes` dictionary in `_merge_oop_code`:
`{"signature": ..., "content": ...}` (lines 1110-1117). -/
structure ClassInfo where
  signature : List Char
  content : List Char
deriving DecidableEq

/-- The structural elements that the regex scan of `_merge_oop_code`
(lines 1032-1134) extracts from one fragment's code: the formatted
package/namespace declaration (line 1060-1065), formatted import/using
lines (1067-1073), constant and field declaration texts (1075-1084,
fields already excluding constant matches), class matches as
(name, signature, body) triples in match order (1086-1117), standalone
method texts that pass the not-inside-a-class check (1119-1125), and the
stripped residual text after `re.sub`-removing all matched patterns
(1127-1134).  The regex layer is abstracted as a per-fragment function
because claims C2 and C7 are about the aggregation and assembly that
consume these elements; the loop and assembly below are translated
line by line. -/
structure Extraction where
  packageDecl : Option (List Char)
  imports : List (List Char)
  constants : List (List Char)
  fields : List (List Char)
  classMatches : List (List Char × List Char × List Char)
  methods : List (List Char)
  residual : List Char

/-- Accumulated merge state of `_merge_oop_code` (lines 1023-1030). -/
structure MergeState where
  package : Option (List Char)
  imports : List (List Char)
  constants : List (List Char)
  fields : List (List Char)
  classes : List (List Char × ClassInfo)
  methods : List (List Char)
  other : List (List Char)
deriving DecidableEq

/-- Python `set.add`, modelled on a duplicate-free list (iteration order
is irrelevant: these sets are only read through `sorted(...)`). -/
def setAdd {α : Type} [DecidableEq α] (s : List α) (x : α) : List α :=
  if x ∈ s then s else s ++ [x]

/-- First-match association lookup (Python dict access by key). -/
def lookupKey (name : List Char) : List (List Char × ClassInfo) → Option ClassInfo
  | [] => none
  | p :: m => if p.1 = name then some p.2 else lookupKey name m

/-- The `"\n\n"` separator used when merging class bodies (line 1112). -/
def nnSep : List Char := ['\n', '\n']

/-- Lines 1109-1117: store a class match `(name, signature, content)`;
an existing entry keeps its position and signature and appends
`"\n\n" + content`, a new entry is inserted at the end (Python dicts
preserve insertion order). -/
def insClass (m : List (List Char × ClassInfo))
    (t : List Char × List Char × List Char) : List (List Char × ClassInfo) :=
  match lookupKey t.1 m with
  | some _ =>
    m.map fun p =>
      if p.1 = t.1 then (p.1, ⟨p.2.signature, p.2.content ++ nnSep ++ t.2.2⟩) else p
  | none => m ++ [(t.1, ⟨t.2.1, t.2.2⟩)]

def emptyMergeState : MergeState :=
  { package := none, imports := [], constants := [], fields := [],
    classes := [], methods := [], other := [] }

/-- One iteration of the extraction loop of `_merge_oop_code` (lines
1054-1134) over the elements of one fragment. -/
def processFragment (st : MergeState) (e : Extraction) : MergeState :=
  { package :=
      match st.package with
      | some p => some p
      | none => e.packageDecl,
    imports := e.imports.foldl setAdd st.imports,
    constants := e.constants.foldl setAdd st.constants,
    fields := e.fields.foldl setAdd st.fields,
    classes := e.classMatches.foldl insClass st.classes,
    methods := st.methods ++ e.methods,
    other :=
      if e.residual ≠ [] ∧ 10 < e.residual.length then st.other ++ [e.residual]
      else st.other }

/-- The full extraction loop (lines 1054-1134): fragments with empty
`convertedCode` are skipped (`if not code: continue`). -/
def buildMergeState (extract : List Char → Extraction) (results : List ConvResult) :
    MergeState :=
  results.foldl
    (fun st r =>
      if r.convertedCode = [] then st else processFragment st (extract r.convertedCode))
    emptyMergeState

/-- Lexicographic string order by code point, Python `sorted` order. -/
def strLe : List Char → List Char → Bool
  | [], _ => true
  | _ :: _, [] => false
  | a :: as, b :: bs =>
    if a.toNat < b.toNat then true
    else if b.toNat < a.toNat then false
    else strLe as bs

def insSorted (x : List Char) : List (List Char) → List (List Char)
  | [] => [x]
  | y :: ys => if strLe x y then x :: y :: ys else y :: insSorted x ys

/-- Python `sorted(...)` over strings (insertion sort; on the
duplicate-free sets involved the sorted result is unique, so any correct
sort coincides with CPython's). -/
def sortStrings (l : List (List Char)) : List (List Char) := l.foldr insSorted []

def pkgSection : Option (List Char) → List (List Char)
  | some p => [p, []]
  | none => []

def importsSection (imports : List (List Char)) : List (List Char) :=
  if imports = [] then [] else sortStrings imports ++ [[]]

def constantsSection (constants : List (List Char)) : List (List Char) :=
  if constants = [] then [] else "// Constants".data :: (sortStrings constants ++ [[]])

def fieldsSection (fields : List (List Char)) : List (List Char) :=
  if fields = [] then [] else "// Fields".data :: (sortStrings fields ++ [[]])

def classesSection (classes : List (List Char × ClassInfo)) : List (List Char) :=
  classes.flatMap fun p =>
    (p.2.signature ++ [' ', lbrace]) ::
      ((if p.2.content ≠ [] then [p.2.content] else []) ++ [[rbrace], []])

def methodsSection (methods : List (List Char)) : List (List Char) :=
  if methods = [] then [] else "// Utility Methods".data :: (methods ++ [[]])

def otherSection (other : List (List Char)) : List (List Char) :=
  if other = [] then [] else "// Additional Code".data :: (other ++ [[]])

def noCodeMsg : List Char :=
  "// No code was generated during the conversion process".data

/-- Assembly of the final text (lines 1136-1190), in source order:
package/namespace, sorted imports, sorted constants, sorted fields,
classes in dictionary (first-seen) order, utility methods, residual
blocks; the parts are collected as lines and joined with `'\n'`. -/
def assembleMerged (st : MergeState) : List Char :=
  let lines :=
    pkgSection st.package ++ importsSection st.imports ++
    constantsSection st.constants ++ fieldsSection st.fields ++
    classesSection st.classes ++ methodsSection st.methods ++
    otherSection st.other
  if lines = [] then noCodeMsg else joinNl lines

/-- `_merge_oop_code` (code_converter.py lines 1008-1190) for the
Java/C# path, over the abstracted extraction layer. -/
def merge_oop_code (extract : List Char → Extraction) (results : List ConvResult) :
    List Char :=
  assembleMerged (buildMergeState extract results)

/-- Class-match triples contributed by one fragment (empty code skipped,
as in the loop). -/
def fragClassMatches (extract : List Char → Extraction) (r : ConvResult) :
    List (List Char × List Char × List Char) :=
  if r.convertedCode = [] then [] else (extract r.convertedCode).classMatches

/-- All class-match triples of a fragment list, in fragment order. -/
def allClassMatches (extract : List Char → Extraction) (results : List ConvResult) :
    List (List Char × List Char × List Char) :=
  results.flatMap (fragClassMatches extract)

/-- The triples declaring a given class name, in fragment order. -/
def contribsFor (name : List Char)
    (ts : List (List Char × List Char × List Char)) :
    List (List Char × List Char × List Char) :=
  ts.filter fun t => t.1 = name

/-- Import lines contributed by the fragment list, in encounter order
(before set-deduplication). -/
def allImports (extract : List Char → Extraction) (results : List ConvResult) :
    List (List Char) :=
  results.flatMap fun r =>
    if r.convertedCode = [] then [] else (extract r.convertedCode).imports

/-- Keys (class names) of the classes dictionary, in insertion order. -/
def keysOf (m : List (List Char × ClassInfo)) : List (List Char) := m.map Prod.fst

/-- Find the first occurrence of `pat` (nonempty) in the text, returning
the text before it and the text after it. -/
def splitAtSubF (pat : List Char) : Nat → List Char → Option (List Char × List Char)
  | 0, cs => if pat.isPrefixOf cs then some ([], cs.drop pat.length) else none
  | fuel+1, cs =>
    if pat.isPrefixOf cs then some ([], cs.drop pat.length)
    else
      match cs with
      | [] => none
      | c :: cs' =>
        match splitAtSubF pat fuel cs' with
        | some pr => some (c :: pr.1, pr.2)
        | none => none

def splitAtSub (pat cs : List Char) : Option (List Char × List Char) :=
  splitAtSubF pat cs.length cs

/-- The markdown fence token. -/
def fenceTok : List Char := "```".data

/-- Captured groups of Python
`re.findall(r'```(?:json)?\s*([\s\S]*?)\s*```', text)` (app.py line 68):
for each fenced block, the body between the fences with surrounding
whitespace trimmed (the greedy `\s*` ends and the lazy body absorb it). -/
def fencedBlocksF : Nat → List Char → List (List Char)
  | 0, _ => []
  | fuel+1, cs =>
    match splitAtSub fenceTok cs with
    | none => []
    | some pr =>
      let afterLang :=
        match matchKw "json".data pr.2 with
        | some r => r
        | none => pr.2
      match splitAtSub fenceTok afterLang with
      | none => []
      | some pr2 => pyStrip pr2.1 :: fencedBlocksF fuel pr2.2

def fencedBlocks (cs : List Char) : List (List Char) := fencedBlocksF cs.length cs

/-- Matches of Python `re.findall(r'({[\s\S]*?})', text)` (app.py line
122): lazy, so each match runs from a `{` to the nearest following `}`,
non-overlapping. -/
def braceCandidatesF : Nat → List Char → List (List Char)
  | 0, _ => []
  | fuel+1, cs =>
    match splitAtSub [lbrace] cs with
    | none => []
    | some pr =>
      match splitAtSub [rbrace] pr.2 with
      | none => []
      | some pr2 => (lbrace :: (pr2.1 ++ [rbrace])) :: braceCandidatesF fuel pr2.2

def braceCandidates (cs : List Char) : List (List Char) := braceCandidatesF cs.length cs

/-- Python `re.search(r'{(.*)', text)` group 0 (app.py line 90): the
first `{` with the remainder of its line. -/
def mainContentLine (cs : List Char) : Option (List Char) :=
  match splitAtSub [lbrace] cs with
  | none => none
  | some pr => some (lbrace :: pr.2.takeWhile (fun c => c != '\n'))

/-- Match `fieldLit` then `\s*:\s*"` at the head, returning the text
after the opening quote. -/
def matchFieldPrefixAt? (fieldLit cs : List Char) : Option (List Char) :=
  match matchKw fieldLit cs with
  | none => none
  | some r =>
    match r.dropWhile pyIsSpace with
    | ':' :: r2 =>
      match r2.dropWhile pyIsSpace with
      | '"' :: r3 => some r3
      | _ => none
    | _ => none

/-- The lazy capture of `(.*?)(?<!\\)"`: scan for the first unescaped
closing quote on the same line; `prev` is the character before the
current position (for the lookbehind). -/
def scanClosingQuoteF (prev : Char) : List Char → Option (List Char × List Char)
  | [] => none
  | c :: cs =>
    if c = '"' ∧ prev ≠ '\\' then some ([], cs)
    else if c = '\n' then none
    else
      match scanClosingQuoteF c cs with
      | some pr => some (c :: pr.1, pr.2)
      | none => none

/-- Python `re.search(fieldLit + r'\s*:\s*"(.*?)(?<!\\)"', content)`
(app.py lines 95, 108): captured group of the leftmost occurrence that
completes with an unescaped quote. -/
def completeFieldF (fieldLit : List Char) : Nat → List Char → Option (List Char)
  | 0, _ => none
  | _, [] => none
  | fuel+1, c :: cs =>
    match matchFieldPrefixAt? fieldLit (c :: cs) with
    | some r3 =>
      match scanClosingQuoteF '"' r3 with
      | some pr => some pr.1
      | none => completeFieldF fieldLit fuel cs
    | none => completeFieldF fieldLit fuel cs

def completeField (fieldLit cs : List Char) : Option (List Char) :=
  completeFieldF fieldLit cs.length cs

/-- Python `re.search(fieldLit + r'\s*:\s*"(.*)', content)` (app.py line
101): captured group of the leftmost occurrence, running to the end of
the line. -/
def partialFieldF (fieldLit : List Char) : Nat → List Char → Option (List Char)
  | 0, _ => none
  | _, [] => none
  | fuel+1, c :: cs =>
    match matchFieldPrefixAt? fieldLit (c :: cs) with
    | some r3 => some (r3.takeWhile (fun ch => ch != '\n'))
    | none => partialFieldF fieldLit fuel cs

def partialField (fieldLit cs : List Char) : Option (List Char) :=
  partialFieldF fieldLit cs.length cs

/-- Python `str.replace(pat, repl)` for nonempty `pat`: non-overlapping,
left to right. -/
def replaceAllF (pat repl : List Char) : Nat → List Char → List Char
  | 0, cs => cs
  | _, [] => []
  | fuel+1, c :: cs =>
    if pat.isPrefixOf (c :: cs) then
      repl ++ replaceAllF pat repl fuel ((c :: cs).drop pat.length)
    else c :: replaceAllF pat repl fuel cs

def replaceAll (pat repl cs : List Char) : List Char :=
  replaceAllF pat repl cs.length cs

/-- `code.replace('\\n', '\n').replace('\\"', '"')` (app.py line 116). -/
def unescapeCode (cs : List Char) : List Char :=
  replaceAll ['\\', '"'] ['"'] (replaceAll ['\\', 'n'] ['\n'] cs)

/-- The literal `"convertedCode"` (with quotes), as tested by
`'"convertedCode"' in text`. -/
def codeFieldLit : List Char := "\"convertedCode\"".data

/-- The literal `"conversionNotes"` (with quotes). -/
def notesFieldLit : List Char := "\"conversionNotes\"".data

/-- The truncation issue message of app.py line 118. -/
def truncMsg : String := "Response was truncated - some content may be missing"

/-- The `code` recovered by the truncation-salvage branch (app.py lines
94-105): the complete `convertedCode` string if one closes, else the
partial rest-of-line capture, else `""`. -/
def truncCode (content : List Char) : List Char :=
  match completeField codeFieldLit content with
  | some c => c
  | none =>
    match partialField codeFieldLit content with
    | some c => c
    | none => []

/-- The `notes` recovered by the truncation-salvage branch (lines
107-112). -/
def truncNotes (content : List Char) : List Char :=
  match completeField notesFieldLit content with
  | some n => n
  | none => "Truncated during processing".data

/-- `text[:1000] + "..." if len(text) > 1000 else text` (app.py line 139). -/
def rawExcerpt (text : List Char) : List Char :=
  if 1000 < text.length then text.take 1000 ++ "...".data else text

/-- The dictionaries `extract_json_from_response` can return: a parsed
JSON object (`α` abstracts the parse result), the truncation-salvage
dictionary of lines 115-119, or the last-resort dictionary of lines
135-140.  The `except` branch of lines 142-147 is unreachable for the
pure operations modelled here. -/
inductive ExtractionResult (α : Type) where
  | parsed (v : α)
  | truncationSalvage (code notes : List Char) (issues : List String)
  | extractionFailed (code notes : List Char) (issues : List String) (rawText : List Char)
deriving DecidableEq

/-- First fenced block that parses (app.py lines 71-77). -/
def firstParsed {α : Type} (jsonParse : List Char → Option α) :
    List (List Char) → Option α
  | [] => none
  | b :: bs =>
    match jsonParse b with
    | some v => some v
    | none => firstParsed jsonParse bs

/-- First brace candidate longer than 20 characters that parses (app.py
lines 125-130); short candidates are skipped without a parse attempt. -/
def firstParsedBig {α : Type} (jsonParse : List Char → Option α) :
    List (List Char) → Option α
  | [] => none
  | b :: bs =>
    if 20 < b.length then
      match jsonParse b with
      | some v => some v
      | none => firstParsedBig jsonParse bs
    else firstParsedBig jsonParse bs

/-- The shared tail of `extract_json_from_response` after the
truncation-repair attempt (app.py lines 121-140): brace-pattern
candidates, then the last-resort dictionary. -/
def lastResortBranch {α : Type} (jsonParse : List Char → Option α)
    (text : List Char) : ExtractionResult α :=
  match firstParsedBig jsonParse (braceCandidates text) with
  | some v => .parsed v
  | none =>
    .extractionFailed "Extraction failed - see raw response".data
      "JSON parsing failed. The model response may have been truncated.".data
      ["JSON extraction failed"] (rawExcerpt text)

/-- `extract_json_from_response` (app.py lines 50-147).  `jsonParse`
models `json.loads` (`none` = `JSONDecodeError`). -/
def extract_json_from_response {α : Type} (jsonParse : List Char → Option α)
    (text : List Char) : ExtractionResult α :=
  match jsonParse text with
  | some v => .parsed v
  | none =>
    match firstParsed jsonParse (fencedBlocks text) with
    | some v => .parsed v
    | none =>
      if text.count rbrace < text.count lbrace ∧
         containsSub codeFieldLit text ∧ containsSub notesFieldLit text then
        match mainContentLine text with
        | some content =>
          .truncationSalvage (unescapeCode (truncCode content)) (truncNotes content)
            [truncMsg]
        | none => lastResortBranch jsonParse text
      else lastResortBranch jsonParse text

/-- The JSON-extraction regex of `_convert_single_chunk` (code_converter
line 644): `(\{[\s\S]*\})`, greedy, i.e. from the first `{` through the
last `}` when such a pair exists. -/
def extractJsonCandidate (cs : List Char) : Option (List Char) :=
  match splitAtSub [lbrace] cs with
  | none => none
  | some pr =>
    match splitAtSub [rbrace] pr.2.reverse with
    | none => none
    | some pr2 => some (lbrace :: (pr2.2.reverse ++ [rbrace]))

/-- Fallback dictionary of `_convert_single_chunk` (lines 660-665);
`errMsg` is `str(json_err)`. -/
def invalidFormatResult (errMsg : String) : ConvResult :=
  { convertedCode := "// Error: Invalid response format received from server".data,
    conversionNotes := s!"Error processing response: {errMsg}",
    potentialIssues := ["Failed to process model response", "Response was not valid JSON"],
    databaseUsed := false }

/-- Response-processing chain of `_convert_single_chunk`
(code_converter.py lines 624-674): parse the whole response; on failure
regex-extract the largest brace span and reparse; on failure return the
invalid-format fallback.  `jsonParse` models `json.loads` plus the dict
field reads, `validate` the in-place issue appending of `_validate_code`
(identity for non-Java/C# targets). -/
def processConversionContent (jsonParse : List Char → Option ConvResult)
    (validate : ConvResult → ConvResult) (errMsg : String)
    (content : List Char) : ConvResult :=
  match jsonParse content with
  | some r => validate r
  | none =>
    match extractJsonCandidate content with
    | some cand =>
      match jsonParse cand with
      | some r => validate r
      | none => invalidFormatResult errMsg
    | none => invalidFormatResult errMsg

/-- Fixture: three fragment results (middle one whitespace-only) used by
the C1/C10 witnesses. -/
def mergeWitnessResults : List ConvResult :=
  [⟨"class A \x7b\x7d".data, "n1", ["i1"], false⟩,
   ⟨"   ".data, "", [], false⟩,
   ⟨"int x;".data, "", [], true⟩]

/-- Fixture: the extraction outcomes for Scenario D — three fragments
each declaring class `Order` with a different body. -/
def scenarioDExtract : List Char → Extraction := fun code =>
  { packageDecl := none, imports := [], constants := [], fields := [],
    classMatches :=
      if code = "public class Order \x7b int a; \x7d".data then
        [("Order".data, "public class Order".data, "int a;".data)]
      else if code = "public class Order \x7b int b; \x7d".data then
        [("Order".data, "public class Order".data, "int b;".data)]
      else
        [("Order".data, "public class Order".data, "int c;".data)],
    methods := [], residual := [] }

/-- Fixture: the three Scenario D fragment results. -/
def scenarioDResults : List ConvResult :=
  [⟨"public class Order \x7b int a; \x7d".data, "", [], false⟩,
   ⟨"public class Order \x7b int b; \x7d".data, "", [], false⟩,
   ⟨"public class Order \x7b int c; \x7d".data, "", [], false⟩]

theorem splitNl_ne_nil (cs : List Char) : splitNl cs ≠ [] := by
  induction cs with
  | nil => simp [splitNl]
  | cons c cs ih =>
    simp only [splitNl]
    split
    · simp
    · match h : splitNl cs with
      | [] => simp
      | t :: ts => simp

theorem not_nl_mem_splitNl (cs : List Char) :
    ∀ l ∈ splitNl cs, '\n' ∉ l := by
  induction cs with
  | nil => intro l hl; simp [splitNl] at hl; simp [hl]
  | cons c cs ih =>
    intro l hl
    by_cases hc : c = '\n'
    · subst hc
      simp only [splitNl, if_pos rfl] at hl
      rcases List.mem_cons.mp hl with h | h
      · simp [h]
      · exact ih l h
    · simp only [splitNl, if_neg hc] at hl
      rcases hsp : splitNl cs with _ | ⟨t, ts⟩
      · exact absurd hsp (splitNl_ne_nil cs)
      · rw [hsp] at hl
        rcases List.mem_cons.mp hl with h | h
        · subst h
          intro hm
          rcases List.mem_cons.mp hm with h1 | h1
          · exact hc h1.symm
          · exact ih t (by rw [hsp]; exact List.mem_cons_self _ _) h1
        · exact ih l (by rw [hsp]; exact List.mem_cons_of_mem _ h)

theorem splitNl_of_not_mem {l : List Char} (h : '\n' ∉ l) : splitNl l = [l] := by
  induction l with
  | nil => rfl
  | cons c cs ih =>
    have hc : c ≠ '\n' := fun hcEq => h (hcEq ▸ List.mem_cons_self c cs)
    have hcs : '\n' ∉ cs := fun hm => h (List.mem_cons_of_mem c hm)
    simp only [splitNl, if_neg hc, ih hcs]

theorem splitNl_append_nl {l : List Char} (rest : List Char) (h : '\n' ∉ l) :
    splitNl (l ++ '\n' :: rest) = l :: splitNl rest := by
  induction l with
  | nil => simp [splitNl]
  | cons c cs ih =>
    have hc : c ≠ '\n' := fun hcEq => h (hcEq ▸ List.mem_cons_self c cs)
    have hcs : '\n' ∉ cs := fun hm => h (List.mem_cons_of_mem c hm)
    simp only [List.cons_append, splitNl, if_neg hc]
    rw [List.append_eq, ih hcs]

theorem splitNl_joinNl {L : List (List Char)} (hne : L ≠ [])
    (hnl : ∀ l ∈ L, '\n' ∉ l) : splitNl (joinNl L) = L := by
  induction L with
  | nil => exact absurd rfl hne
  | cons l ls ih =>
    match ls with
    | [] => exact splitNl_of_not_mem (hnl l (List.mem_cons_self l []))
    | l' :: ls' =>
      have h1 : '\n' ∉ l := hnl l (List.mem_cons_self _ _)
      have h2 : ∀ x ∈ l' :: ls', '\n' ∉ x := fun x hx => hnl x (List.mem_cons_of_mem l hx)
      show splitNl (l ++ '\n' :: joinNl (l' :: ls')) = l :: l' :: ls'
      rw [splitNl_append_nl _ h1, ih (by simp) h2]

theorem count_joinNl {c : Char} (hc : c ≠ '\n') (L : List (List Char)) :
    (joinNl L).count c = (L.map (List.count c)).sum := by
  induction L with
  | nil => simp [joinNl]
  | cons l ls ih =>
    match ls with
    | [] => simp [joinNl]
    | l' :: ls' =>
      show (l ++ '\n' :: joinNl (l' :: ls')).count c = _
      rw [List.count_append, List.count_cons]
      simp only [List.map_cons, List.sum_cons] at ih ⊢
      rw [ih]
      have : (('\n' : Char) == c) = false := by
        simp [BEq.beq]; exact fun h => hc h.symm
      simp [this]

theorem count_splitNl {c : Char} (hc : c ≠ '\n') (cs : List Char) :
    ((splitNl cs).map (List.count c)).sum = cs.count c := by
  induction cs with
  | nil => simp [splitNl]
  | cons x xs ih =>
    simp only [splitNl]
    split
    · rename_i hx
      subst hx
      simp only [List.map_cons, List.sum_cons, List.count_nil, List.count_cons]
      have : (('\n' : Char) == c) = false := by
        simp [BEq.beq]; exact fun h => hc h.symm
      simp [this, ih]
    · rename_i hx
      match h : splitNl xs with
      | [] => exact absurd h (splitNl_ne_nil xs)
      | t :: ts =>
        rw [h] at ih
        simp only [List.map_cons, List.sum_cons, List.count_cons] at ih ⊢
        rw [← ih]
        ring

theorem count_all_not_mem {c : Char} {l : List Char}
    (h : ∀ x ∈ l, x ≠ c) : l.count c = 0 := by
  rw [List.count_eq_zero]
  intro hmem
  exact h c hmem rfl

theorem count_dropWhile_of_not {c : Char} {p : Char → Bool} (l : List Char)
    (hc : p c = false) : (l.dropWhile p).count c = l.count c := by
  conv_rhs => rw [← List.takeWhile_append_dropWhile p l]
  rw [List.count_append]
  have : (l.takeWhile p).count c = 0 := by
    apply count_all_not_mem
    intro x hx hxc
    have := List.mem_takeWhile_imp hx
    rw [hxc, hc] at this
    exact Bool.false_ne_true this
  omega

theorem count_pyStrip {c : Char} (hc : pyIsSpace c = false) (l : List Char) :
    (pyStrip l).count c = l.count c := by
  unfold pyStrip pyStripRight pyStripLeft
  rw [List.count_reverse, count_dropWhile_of_not _ hc, List.count_reverse,
    count_dropWhile_of_not _ hc]

theorem dropWhile_head_not {p : Char → Bool} (l : List Char) :
    ∀ x, (l.dropWhile p).head? = some x → p x = false := by
  induction l with
  | nil => intro x hx; simp [List.dropWhile] at hx
  | cons c cs ih =>
    intro x hx
    rw [List.dropWhile_cons] at hx
    split at hx
    · exact ih x hx
    · rename_i h
      simp at hx
      rw [← hx]
      exact Bool.of_not_eq_true h

theorem dropWhile_idem {p : Char → Bool} (l : List Char) :
    (l.dropWhile p).dropWhile p = l.dropWhile p := by
  match h : l.dropWhile p with
  | [] => rfl
  | x :: xs =>
    have hx : p x = false := dropWhile_head_not l x (by rw [h]; rfl)
    rw [List.dropWhile_cons, hx]
    simp

theorem dropWhile_replicate_append {p : Char → Bool} {a : Char} (ha : p a = true)
    (n : Nat) (l : List Char) :
    (List.replicate n a ++ l).dropWhile p = l.dropWhile p := by
  induction n with
  | zero => simp
  | succ k ih =>
    rw [List.replicate_succ, List.cons_append, List.dropWhile_cons, ha]
    simpa using ih

theorem matchEmptyCatch_decomp {cs param rest : List Char}
    (h : matchEmptyCatchAt? cs = some (param, rest)) :
    ∃ ws1 ws2 ws3 : List Char,
      cs = 'c' :: 'a' :: 't' :: 'c' :: 'h' ::
        (ws1 ++ '(' :: (param ++ ')' :: (ws2 ++ lbrace :: (ws3 ++ rbrace :: rest)))) ∧
      (∀ x ∈ ws1, pyIsSpace x = true) ∧ (∀ x ∈ ws2, pyIsSpace x = true) ∧
      (∀ x ∈ ws3, pyIsSpace x = true) ∧ (∀ x ∈ param, (x != ')') = true) := by
  match cs with
  | [] => simp [matchEmptyCatchAt?] at h
  | [_] => simp [matchEmptyCatchAt?] at h
  | [_, _] => simp [matchEmptyCatchAt?] at h
  | [_, _, _] => simp [matchEmptyCatchAt?] at h
  | [_, _, _, _] => simp [matchEmptyCatchAt?] at h
  | c1 :: c2 :: c3 :: c4 :: c5 :: r0 =>
    simp only [matchEmptyCatchAt?] at h
    by_cases hchars : c1 = 'c' ∧ c2 = 'a' ∧ c3 = 't' ∧ c4 = 'c' ∧ c5 = 'h'
    · rw [if_pos hchars] at h
      obtain ⟨e1, e2, e3, e4, e5⟩ := hchars
      subst e1; subst e2; subst e3; subst e4; subst e5
      rcases hd0 : r0.dropWhile pyIsSpace with _ | ⟨c6, r2⟩ <;> rw [hd0] at h <;>
        dsimp only [] at h
      · exact absurd h (by simp)
      · by_cases hc6 : c6 = '('
        · rw [if_pos hc6] at h
          subst hc6
          rcases hd2 : r2.dropWhile (fun c => c != ')') with _ | ⟨c7, r4⟩ <;>
            rw [hd2] at h <;> dsimp only [] at h
          · exact absurd h (by simp)
          · by_cases hc7 : c7 = ')'
            · rw [if_pos hc7] at h
              subst hc7
              rcases hd4 : r4.dropWhile pyIsSpace with _ | ⟨c8, r6⟩ <;>
                rw [hd4] at h <;> dsimp only [] at h
              · exact absurd h (by simp)
              · by_cases hc8 : c8 = lbrace
                · rw [if_pos hc8] at h
                  subst hc8
                  rcases hd6 : r6.dropWhile pyIsSpace with _ | ⟨c9, r8⟩ <;>
                    rw [hd6] at h <;> dsimp only [] at h
                  · exact absurd h (by simp)
                  · by_cases hc9 : c9 = rbrace
                    · rw [if_pos hc9] at h
                      subst hc9
                      simp only [Option.some.injEq, Prod.mk.injEq] at h
                      obtain ⟨hparam, hrest⟩ := h
                      refine ⟨r0.takeWhile pyIsSpace, r4.takeWhile pyIsSpace,
                        r6.takeWhile pyIsSpace, ?_, ?_, ?_, ?_, ?_⟩
                      · have h0 : r0 = r0.takeWhile pyIsSpace ++ ('(' :: r2) := by
                          conv_lhs => rw [← List.takeWhile_append_dropWhile pyIsSpace r0]
                          rw [hd0]
                        have h2 : r2 = param ++ ')' :: r4 := by
                          conv_lhs =>
                            rw [← List.takeWhile_append_dropWhile (fun c => c != ')') r2]
                          rw [hd2, hparam]
                        have h4 : r4 = r4.takeWhile pyIsSpace ++ (lbrace :: r6) := by
                          conv_lhs => rw [← List.takeWhile_append_dropWhile pyIsSpace r4]
                          rw [hd4]
                        have h6 : r6 = r6.takeWhile pyIsSpace ++ (rbrace :: rest) := by
                          conv_lhs => rw [← List.takeWhile_append_dropWhile pyIsSpace r6]
                          rw [hd6, hrest]
                        simp only [List.cons.injEq, true_and]
                        conv_lhs => rw [h0]
                        simp only [List.append_cancel_left_eq, List.cons.injEq, true_and]
                        conv_lhs => rw [h2]
                        simp only [List.append_cancel_left_eq, List.cons.injEq, true_and]
                        conv_lhs => rw [h4]
                        simp only [List.append_cancel_left_eq, List.cons.injEq, true_and]
                        exact h6
                      · intro x hx; exact List.mem_takeWhile_imp hx
                      · intro x hx; exact List.mem_takeWhile_imp hx
                      · intro x hx; exact List.mem_takeWhile_imp hx
                      · intro x hx
                        rw [← hparam] at hx
                        have hp := List.mem_takeWhile_imp hx
                        exact hp
                    · rw [if_neg hc9] at h; exact absurd h (by simp)
                · rw [if_neg hc8] at h; exact absurd h (by simp)
            · rw [if_neg hc7] at h; exact absurd h (by simp)
        · rw [if_neg hc6] at h; exact absurd h (by simp)
    · rw [if_neg hchars] at h; exact absurd h (by simp)

theorem count_eq_zero_of_all_space {ws : List Char}
    (hws : ∀ x ∈ ws, pyIsSpace x = true) {b : Char} (hb : pyIsSpace b = false) :
    ws.count b = 0 := by
  apply count_all_not_mem
  intro x hx hxb
  have h1 := hws x hx
  rw [hxb] at h1
  rw [h1] at hb
  simp at hb

theorem pyIsSpace_lbrace : pyIsSpace lbrace = false := by decide

theorem pyIsSpace_rbrace : pyIsSpace rbrace = false := by decide

theorem matchEmptyCatch_count {cs param rest : List Char}
    (h : matchEmptyCatchAt? cs = some (param, rest)) {b : Char}
    (hb : b = lbrace ∨ b = rbrace) :
    cs.count b = param.count b + 1 + rest.count b := by
  obtain ⟨ws1, ws2, ws3, hcs, hw1, hw2, hw3, _⟩ := matchEmptyCatch_decomp h
  have hbsp : pyIsSpace b = false := by
    rcases hb with hb | hb <;> subst hb
    · exact pyIsSpace_lbrace
    · exact pyIsSpace_rbrace
  have z1 : ws1.count b = 0 := count_eq_zero_of_all_space hw1 hbsp
  have z2 : ws2.count b = 0 := count_eq_zero_of_all_space hw2 hbsp
  have z3 : ws3.count b = 0 := count_eq_zero_of_all_space hw3 hbsp
  subst hcs
  rcases hb with hb | hb <;> subst hb <;>
    simp +decide [List.count_cons, List.count_append, z1, z2, z3] <;>
    omega

theorem matchEmptyCatch_rest_length {cs param rest : List Char}
    (h : matchEmptyCatchAt? cs = some (param, rest)) : rest.length < cs.length := by
  obtain ⟨ws1, ws2, ws3, hcs, -, -, -, -⟩ := matchEmptyCatch_decomp h
  subst hcs
  simp [List.length_append]
  omega

theorem count_catchRepl_lbrace (tl : TL) (p : List Char) :
    (catchRepl tl p).count lbrace = 2 * p.count lbrace + 1 := by
  have hA : catchReplA.count lbrace = 0 := by decide
  have hBj : (catchReplB .java).count lbrace = 1 := by decide
  have hBc : (catchReplB .csharp).count lbrace = 1 := by decide
  have hCj : (catchReplC .java).count lbrace = 0 := by decide
  have hCc : (catchReplC .csharp).count lbrace = 0 := by decide
  cases tl <;>
    simp [catchRepl, List.count_append, hA, hBj, hBc, hCj, hCc] <;> ring

theorem count_catchRepl_rbrace (tl : TL) (p : List Char) :
    (catchRepl tl p).count rbrace = 2 * p.count rbrace + 1 := by
  have hA : catchReplA.count rbrace = 0 := by decide
  have hBj : (catchReplB .java).count rbrace = 0 := by decide
  have hBc : (catchReplB .csharp).count rbrace = 0 := by decide
  have hCj : (catchReplC .java).count rbrace = 1 := by decide
  have hCc : (catchReplC .csharp).count rbrace = 1 := by decide
  cases tl <;>
    simp [catchRepl, List.count_append, hA, hBj, hBc, hCj, hCc] <;> ring

theorem count_subEmptyCatchF (tl : TL) {b : Char} (hb : b = lbrace ∨ b = rbrace) :
    ∀ fuel cs, cs.length ≤ fuel →
      (∀ p ∈ subParamsF fuel cs, p.count lbrace = 0 ∧ p.count rbrace = 0) →
      (subEmptyCatchF tl fuel cs).count b = cs.count b := by
  intro fuel
  induction fuel with
  | zero =>
    intro cs hlen _
    have : cs = [] := List.length_eq_zero.mp (Nat.le_zero.mp hlen)
    subst this
    rfl
  | succ fuel ih =>
    intro cs hlen hps
    match cs with
    | [] => rfl
    | c :: cs' =>
      cases hm : matchEmptyCatchAt? (c :: cs') with
      | some pr =>
        obtain ⟨param, rest⟩ := pr
        have hsub : subEmptyCatchF tl (fuel+1) (c :: cs') =
            catchRepl tl param ++ subEmptyCatchF tl fuel rest := by
          simp [subEmptyCatchF, hm]
        have hpar : subParamsF (fuel+1) (c :: cs') = param :: subParamsF fuel rest := by
          simp [subParamsF, hm]
        rw [hpar] at hps
        have hp0 : param.count lbrace = 0 ∧ param.count rbrace = 0 :=
          hps param (List.mem_cons_self _ _)
        have hlen' : rest.length ≤ fuel := by
          have h1 := matchEmptyCatch_rest_length hm
          simp only [List.length_cons] at h1 hlen
          omega
        have ihr := ih rest hlen' (fun p hp => hps p (List.mem_cons_of_mem _ hp))
        rw [hsub, List.count_append, ihr, matchEmptyCatch_count hm hb]
        rcases hb with hb | hb <;> subst hb
        · rw [count_catchRepl_lbrace, hp0.1]
        · rw [count_catchRepl_rbrace, hp0.2]
      | none =>
        have hsub : subEmptyCatchF tl (fuel+1) (c :: cs') =
            c :: subEmptyCatchF tl fuel cs' := by
          simp [subEmptyCatchF, hm]
        have hpar : subParamsF (fuel+1) (c :: cs') = subParamsF fuel cs' := by
          simp [subParamsF, hm]
        rw [hpar] at hps
        have hlen' : cs'.length ≤ fuel := by
          simp only [List.length_cons] at hlen
          omega
        rw [hsub, List.count_cons, List.count_cons, ih cs' hlen' hps]

theorem count_subEmptyCatch (tl : TL) {b : Char} (hb : b = lbrace ∨ b = rbrace)
    (cs : List Char)
    (hps : ∀ p ∈ subParams cs, p.count lbrace = 0 ∧ p.count rbrace = 0) :
    (subEmptyCatch tl cs).count b = cs.count b :=
  count_subEmptyCatchF tl hb cs.length cs le_rfl hps

theorem pyStripRight_isPrefix (m : List Char) : pyStripRight m <+: m := by
  have h : List.dropWhile pyIsSpace m.reverse <:+ m.reverse :=
    List.dropWhile_suffix pyIsSpace
  have h2 := List.reverse_prefix.mpr h
  simpa [pyStripRight] using h2

theorem head?_of_isPrefix {l m : List Char} (h : l <+: m) {x : Char}
    (hx : l.head? = some x) : m.head? = some x := by
  obtain ⟨t, ht⟩ := h
  match l, hx with
  | a :: l', hx =>
    simp only [List.head?_cons, Option.some.injEq] at hx
    subst hx
    rw [← ht]
    rfl

theorem pyStripLeft_pyStrip (l : List Char) :
    pyStripLeft (pyStrip l) = pyStrip l := by
  unfold pyStrip
  match hm : pyStripRight (pyStripLeft l) with
  | [] => rfl
  | x :: xs =>
    have hpre : pyStripRight (pyStripLeft l) <+: pyStripLeft l :=
      pyStripRight_isPrefix _
    rw [hm] at hpre
    have hh : (pyStripLeft l).head? = some x := head?_of_isPrefix hpre rfl
    have hx : pyIsSpace x = false := dropWhile_head_not l x hh
    simp [pyStripLeft, List.dropWhile_cons, hx]

theorem pyStripRight_idem (m : List Char) :
    pyStripRight (pyStripRight m) = pyStripRight m := by
  unfold pyStripRight
  rw [List.reverse_reverse, dropWhile_idem]

theorem pyStrip_idem (l : List Char) : pyStrip (pyStrip l) = pyStrip l := by
  show pyStripRight (pyStripLeft (pyStrip l)) = pyStrip l
  rw [pyStripLeft_pyStrip]
  show pyStripRight (pyStripRight (pyStripLeft l)) = _
  rw [pyStripRight_idem]
  rfl

theorem mem_pyStrip {x : Char} {l : List Char} (h : x ∈ pyStrip l) : x ∈ l := by
  have h1 : pyStrip l <+: pyStripLeft l := pyStripRight_isPrefix _
  have h2 := h1.sublist.mem h
  exact (List.dropWhile_sublist pyIsSpace).mem h2

theorem count_indentPad {b : Char} (hb : pyIsSpace b = false) (lvl : Nat) :
    (indentPad lvl).count b = 0 := by
  apply count_all_not_mem
  intro x hx hxb
  have : x = ' ' := List.eq_of_mem_replicate hx
  subst hxb
  rw [this] at hb
  simp [pyIsSpace] at hb

theorem count_indentLines {b : Char} (hb : pyIsSpace b = false) :
    ∀ (lvl : Nat) (L : List (List Char)),
      ((indentLines lvl L).map (List.count b)).sum = (L.map (List.count b)).sum := by
  intro lvl L
  induction L generalizing lvl with
  | nil => rfl
  | cons l ls ih =>
    have hline : ∀ k, (indentPad k ++ pyStrip l).count b = l.count b := by
      intro k
      rw [List.count_append, count_indentPad hb, count_pyStrip hb]
      omega
    simp only [indentLines]
    split
    · simp only [List.map_cons, List.sum_cons, hline, ih]
    · split <;> simp only [List.map_cons, List.sum_cons, hline, ih]

theorem count_reindent {b : Char} (hb : pyIsSpace b = false) (hnl : b ≠ '\n')
    (cs : List Char) : (reindent cs).count b = cs.count b := by
  unfold reindent
  rw [count_joinNl hnl, count_indentLines hb, count_splitNl hnl]

theorem indentLines_ne_nil {L : List (List Char)} (h : L ≠ []) (lvl : Nat) :
    indentLines lvl L ≠ [] := by
  match L with
  | [] => exact absurd rfl h
  | l :: ls =>
    simp only [indentLines]
    split
    · simp
    · split <;> simp

theorem not_nl_indentLines {L : List (List Char)} (hL : ∀ l ∈ L, '\n' ∉ l) :
    ∀ lvl, ∀ l' ∈ indentLines lvl L, '\n' ∉ l' := by
  induction L with
  | nil => intro lvl l' hl'; simp [indentLines] at hl'
  | cons l ls ih_raw =>
    intro lvl l' hl'
    have ih := ih_raw (fun x hx => hL x (List.mem_cons_of_mem l hx))
    have hpad : ∀ k, '\n' ∉ indentPad k ++ pyStrip l := by
      intro k hmem
      rcases List.mem_append.mp hmem with h | h
      · have := List.eq_of_mem_replicate h
        simp at this
      · exact hL l (List.mem_cons_self l ls) (mem_pyStrip h)
    simp only [indentLines] at hl'
    split at hl'
    · rcases List.mem_cons.mp hl' with h | h
      · subst h; exact hpad _
      · exact ih _ l' h
    · split at hl'
      · rcases List.mem_cons.mp hl' with h | h
        · subst h; exact hpad _
        · exact ih _ l' h
      · rcases List.mem_cons.mp hl' with h | h
        · subst h; exact hpad _
        · exact ih _ l' h

theorem pyStrip_pad_append (k : Nat) (s : List Char) :
    pyStrip (indentPad k ++ s) = pyStrip s := by
  unfold pyStrip pyStripLeft indentPad
  rw [dropWhile_replicate_append (by decide : pyIsSpace ' ' = true)]

theorem indentLines_cons_lb {l : List Char} {ls : List (List Char)} {lvl : Nat}
    (h : endsWithLbrace (pyStrip l) = true) :
    indentLines lvl (l :: ls) = (indentPad lvl ++ pyStrip l) :: indentLines (lvl+1) ls := by
  simp [indentLines, h]

theorem indentLines_cons_rb {l : List Char} {ls : List (List Char)} {lvl : Nat}
    (h1 : endsWithLbrace (pyStrip l) = false)
    (h2 : startsWithRbrace (pyStrip l) = true) :
    indentLines lvl (l :: ls) = (indentPad (lvl-1) ++ pyStrip l) :: indentLines (lvl-1) ls := by
  simp [indentLines, h1, h2]

theorem indentLines_cons_other {l : List Char} {ls : List (List Char)} {lvl : Nat}
    (h1 : endsWithLbrace (pyStrip l) = false)
    (h2 : startsWithRbrace (pyStrip l) = false) :
    indentLines lvl (l :: ls) = (indentPad lvl ++ pyStrip l) :: indentLines lvl ls := by
  simp [indentLines, h1, h2]

theorem indentLines_idem (lvl : Nat) (L : List (List Char)) :
    indentLines lvl (indentLines lvl L) = indentLines lvl L := by
  induction L generalizing lvl with
  | nil => rfl
  | cons l ls ih =>
    have hemit : ∀ k, pyStrip (indentPad k ++ pyStrip l) = pyStrip l := fun k => by
      rw [pyStrip_pad_append, pyStrip_idem]
    by_cases h1 : endsWithLbrace (pyStrip l) = true
    · rw [indentLines_cons_lb h1,
        indentLines_cons_lb (by rw [hemit]; exact h1)]
      rw [hemit, ih]
    · have h1' : endsWithLbrace (pyStrip l) = false := Bool.of_not_eq_true h1
      by_cases h2 : startsWithRbrace (pyStrip l) = true
      · rw [indentLines_cons_rb h1' h2,
          indentLines_cons_rb (by rw [hemit]; exact h1') (by rw [hemit]; exact h2)]
        rw [hemit, ih]
      · have h2' : startsWithRbrace (pyStrip l) = false := Bool.of_not_eq_true h2
        rw [indentLines_cons_other h1' h2',
          indentLines_cons_other (by rw [hemit]; exact h1') (by rw [hemit]; exact h2')]
        rw [hemit, ih]

theorem reindent_idem (cs : List Char) : reindent (reindent cs) = reindent cs := by
  unfold reindent
  have h1 : indentLines 0 (splitNl cs) ≠ [] := indentLines_ne_nil (splitNl_ne_nil cs) 0
  have h2 : ∀ l ∈ indentLines 0 (splitNl cs), '\n' ∉ l :=
    not_nl_indentLines (not_nl_mem_splitNl cs) 0
  rw [splitNl_joinNl h1 h2, indentLines_idem]

theorem fallback_merge_aux_acc (rs : List ConvResult) :
    ∀ (i : Nat) (acc : List Char), acc ≠ [] →
      fallback_merge_aux i acc rs =
        acc ++ (labeledBlocks i rs).flatMap (fun p => chunkDivider (p.1 + 1) ++ p.2) := by
  induction rs with
  | nil => intro i acc _; simp [fallback_merge_aux, labeledBlocks]
  | cons r rs ih =>
    intro i acc hacc
    simp only [fallback_merge_aux, labeledBlocks]
    by_cases hc : pyStrip r.convertedCode = []
    · simp only [if_pos hc]
      exact ih (i+1) acc hacc
    · simp only [if_neg hc, if_neg hacc]
      rw [ih (i+1) _ (by simp [hacc])]
      simp [List.append_assoc]

theorem fallback_merge_eq_naiveConcat (results : List ConvResult) :
    fallback_merge results = naiveConcat results := by
  unfold fallback_merge naiveConcat
  generalize 0 = i
  induction results generalizing i with
  | nil => rfl
  | cons r rs ih =>
    simp only [fallback_merge_aux, labeledBlocks]
    by_cases hc : pyStrip r.convertedCode = []
    · simp only [if_pos hc]
      exact ih (i+1)
    · rw [if_neg hc]
      split
      · exact fallback_merge_aux_acc rs (i+1) _ hc
      · rename_i hfalse; exact absurd trivial hfalse

theorem lookupKey_map_update_self (t : List Char × List Char × List Char) :
    ∀ (m : List (List Char × ClassInfo)) (ci : ClassInfo),
      lookupKey t.1 m = some ci →
      lookupKey t.1 (m.map fun p =>
        if p.1 = t.1 then (p.1, ⟨p.2.signature, p.2.content ++ nnSep ++ t.2.2⟩) else p) =
        some ⟨ci.signature, ci.content ++ nnSep ++ t.2.2⟩ := by
  intro m
  induction m with
  | nil => intro ci h; simp [lookupKey] at h
  | cons p m ih =>
    intro ci h
    by_cases hp : p.1 = t.1
    · simp only [lookupKey, if_pos hp] at h
      simp only [List.map_cons, if_pos hp, lookupKey, if_pos rfl]
      simp only [Option.some.injEq] at h
      rw [h]
    · simp only [lookupKey, if_neg hp] at h
      simp only [List.map_cons, if_neg hp, lookupKey, if_neg hp]
      exact ih ci h

theorem lookupKey_map_update_other (t : List Char × List Char × List Char)
    {name : List Char} (hn : name ≠ t.1) :
    ∀ (m : List (List Char × ClassInfo)),
      lookupKey name (m.map fun p =>
        if p.1 = t.1 then (p.1, ⟨p.2.signature, p.2.content ++ nnSep ++ t.2.2⟩) else p) =
        lookupKey name m := by
  intro m
  induction m with
  | nil => rfl
  | cons p m ih =>
    by_cases hp : p.1 = t.1
    · have hpn : ¬ p.1 = name := by rw [hp]; exact fun h => hn h.symm
      simp only [List.map_cons, if_pos hp, lookupKey, if_neg hpn, ih]
    · by_cases hpn : p.1 = name
      · simp only [List.map_cons, if_neg hp, lookupKey, if_pos hpn]
      · simp only [List.map_cons, if_neg hp, lookupKey, if_neg hpn, ih]

theorem lookupKey_append_single (name k : List Char) (ci : ClassInfo) :
    ∀ m, lookupKey name (m ++ [(k, ci)]) =
      match lookupKey name m with
      | some c => some c
      | none => if k = name then some ci else none := by
  intro m
  induction m with
  | nil => simp [lookupKey]
  | cons p m ih =>
    by_cases hp : p.1 = name
    · simp only [List.cons_append, lookupKey, if_pos hp]
    · simp only [List.cons_append, lookupKey, if_neg hp]
      exact ih

theorem insClass_lookup_self {m : List (List Char × ClassInfo)}
    {t : List Char × List Char × List Char} {ci : ClassInfo}
    (h : lookupKey t.1 m = some ci) :
    lookupKey t.1 (insClass m t) = some ⟨ci.signature, ci.content ++ nnSep ++ t.2.2⟩ := by
  unfold insClass
  rw [h]
  exact lookupKey_map_update_self t m ci h

theorem insClass_lookup_new {m : List (List Char × ClassInfo)}
    {t : List Char × List Char × List Char}
    (h : lookupKey t.1 m = none) :
    lookupKey t.1 (insClass m t) = some ⟨t.2.1, t.2.2⟩ := by
  unfold insClass
  rw [h, lookupKey_append_single]
  rw [h]
  simp

theorem insClass_lookup_other {m : List (List Char × ClassInfo)}
    {t : List Char × List Char × List Char} {name : List Char}
    (hn : name ≠ t.1) :
    lookupKey name (insClass m t) = lookupKey name m := by
  unfold insClass
  cases h : lookupKey t.1 m with
  | some ci => exact lookupKey_map_update_other t hn m
  | none =>
    rw [lookupKey_append_single]
    cases h2 : lookupKey name m with
    | some c => rfl
    | none =>
      have : ¬ t.1 = name := fun he => hn he.symm
      simp [this]

theorem lookupKey_foldl_insClass (ts : List (List Char × List Char × List Char)) :
    ∀ (m : List (List Char × ClassInfo)) (name : List Char),
      lookupKey name (ts.foldl insClass m) =
        match lookupKey name m with
        | some ci =>
          some ⟨ci.signature,
            ci.content ++ (contribsFor name ts).flatMap (fun t => nnSep ++ t.2.2)⟩
        | none =>
          match contribsFor name ts with
          | [] => none
          | t :: rest => some ⟨t.2.1, t.2.2 ++ rest.flatMap (fun t2 => nnSep ++ t2.2.2)⟩ := by
  induction ts with
  | nil =>
    intro m name
    cases h : lookupKey name m with
    | some ci => simp [contribsFor, h]
    | none => simp [contribsFor, h]
  | cons t ts ih =>
    intro m name
    rw [List.foldl_cons]
    by_cases hn : t.1 = name
    · have hfil : contribsFor name (t :: ts) = t :: contribsFor name ts := by
        simp [contribsFor, List.filter_cons, hn]
      cases h : lookupKey name m with
      | some ci =>
        have h' : lookupKey t.1 m = some ci := by rw [hn]; exact h
        have hlook := insClass_lookup_self h'
        rw [hn] at hlook
        rw [ih (insClass m t) name, hlook, hfil]
        simp [List.append_assoc]
      | none =>
        have h' : lookupKey t.1 m = none := by rw [hn]; exact h
        have hlook := insClass_lookup_new h'
        rw [hn] at hlook
        rw [ih (insClass m t) name, hlook, hfil]
    · have hn' : name ≠ t.1 := fun he => hn he.symm
      have hfil : contribsFor name (t :: ts) = contribsFor name ts := by
        simp [contribsFor, List.filter_cons, hn]
      rw [ih (insClass m t) name, insClass_lookup_other hn', hfil]

theorem lookupKey_eq_none_iff (name : List Char) :
    ∀ m, lookupKey name m = none ↔ name ∉ keysOf m := by
  intro m
  induction m with
  | nil => simp [lookupKey, keysOf]
  | cons p m ih =>
    rw [show keysOf (p :: m) = p.1 :: keysOf m from rfl]
    by_cases hp : p.1 = name
    · rw [lookupKey, if_pos hp]
      constructor
      · intro h; exact Option.noConfusion h
      · intro h; exact absurd (List.mem_cons_self p.1 (keysOf m)) (hp ▸ h)
    · rw [lookupKey, if_neg hp, ih]
      simp only [List.mem_cons]
      constructor
      · intro h
        rintro (h1 | h1)
        · exact hp h1.symm
        · exact h h1
      · intro h h1
        exact h (Or.inr h1)

theorem keysOf_insClass (m : List (List Char × ClassInfo))
    (t : List Char × List Char × List Char) :
    keysOf (insClass m t) =
      if t.1 ∈ keysOf m then keysOf m else keysOf m ++ [t.1] := by
  unfold insClass
  cases h : lookupKey t.1 m with
  | some ci =>
    have hmem : t.1 ∈ keysOf m := by
      by_contra hmem
      rw [← lookupKey_eq_none_iff] at hmem
      rw [h] at hmem
      exact Option.noConfusion hmem
    rw [if_pos hmem]
    unfold keysOf
    rw [List.map_map]
    apply List.map_congr_left
    intro p _
    by_cases hp : p.1 = t.1 <;> simp [hp]
  | none =>
    rw [if_neg ((lookupKey_eq_none_iff t.1 m).mp h)]
    simp [keysOf]

theorem dedupKeepFirstAux_congr {α : Type} [DecidableEq α] :
    ∀ (l : List α) (s₁ s₂ : List α), (∀ x, x ∈ s₁ ↔ x ∈ s₂) →
      dedupKeepFirstAux s₁ l = dedupKeepFirstAux s₂ l := by
  intro l
  induction l with
  | nil => intro s₁ s₂ _; rfl
  | cons x xs ih =>
    intro s₁ s₂ hs
    simp only [dedupKeepFirstAux]
    by_cases hx : x ∈ s₁
    · rw [if_pos hx, if_pos ((hs x).mp hx)]
      exact ih s₁ s₂ hs
    · rw [if_neg hx, if_neg (fun h => hx ((hs x).mpr h))]
      refine congrArg (x :: ·) (ih _ _ ?_)
      intro y
      simp only [List.mem_cons]
      rw [hs y]

theorem mem_dedupKeepFirstAux {α : Type} [DecidableEq α] :
    ∀ (l : List α) (s : List α) (x : α),
      x ∈ dedupKeepFirstAux s l ↔ x ∉ s ∧ x ∈ l := by
  intro l
  induction l with
  | nil => intro s x; simp [dedupKeepFirstAux]
  | cons y ys ih =>
    intro s x
    simp only [dedupKeepFirstAux]
    by_cases hy : y ∈ s
    · rw [if_pos hy, ih]
      simp only [List.mem_cons]
      constructor
      · rintro ⟨h1, h2⟩; exact ⟨h1, Or.inr h2⟩
      · rintro ⟨h1, h2 | h2⟩
        · subst h2; exact absurd hy h1
        · exact ⟨h1, h2⟩
    · rw [if_neg hy]
      simp only [List.mem_cons, ih]
      constructor
      · rintro (rfl | ⟨h1, h2⟩)
        · exact ⟨hy, Or.inl rfl⟩
        · exact ⟨fun hs => h1 (Or.inr hs), Or.inr h2⟩
      · rintro ⟨h1, rfl | h2⟩
        · exact Or.inl rfl
        · by_cases hxy : x = y
          · exact Or.inl hxy
          · exact Or.inr ⟨fun hs => hs.elim hxy h1, h2⟩

theorem nodup_dedupKeepFirstAux {α : Type} [DecidableEq α] :
    ∀ (l : List α) (s : List α), (dedupKeepFirstAux s l).Nodup := by
  intro l
  induction l with
  | nil => intro s; simp [dedupKeepFirstAux]
  | cons y ys ih =>
    intro s
    simp only [dedupKeepFirstAux]
    by_cases hy : y ∈ s
    · rw [if_pos hy]; exact ih s
    · rw [if_neg hy]
      refine List.Nodup.cons ?_ (ih (y :: s))
      intro hmem
      have := (mem_dedupKeepFirstAux ys (y :: s) y).mp hmem
      exact this.1 (List.mem_cons_self y s)

theorem keysOf_foldl_insClass :
    ∀ (ts : List (List Char × List Char × List Char)) (m : List (List Char × ClassInfo)),
      keysOf (ts.foldl insClass m) =
        keysOf m ++ dedupKeepFirstAux (keysOf m) (ts.map (fun t => t.1)) := by
  intro ts
  induction ts with
  | nil => intro m; simp [dedupKeepFirstAux]
  | cons t ts ih =>
    intro m
    rw [List.foldl_cons, ih (insClass m t), keysOf_insClass]
    simp only [List.map_cons, dedupKeepFirstAux]
    by_cases hmem : t.1 ∈ keysOf m
    · rw [if_pos hmem, if_pos hmem]
    · rw [if_neg hmem, if_neg hmem]
      rw [List.append_assoc]
      refine congrArg (keysOf m ++ ·) ?_
      refine congrArg (t.1 :: ·) ?_
      apply dedupKeepFirstAux_congr
      intro x
      simp [List.mem_append, List.mem_cons, or_comm]

theorem buildMergeState_classes (extract : List Char → Extraction)
    (results : List ConvResult) :
    (buildMergeState extract results).classes =
      (allClassMatches extract results).foldl insClass [] := by
  unfold buildMergeState allClassMatches
  have haux : ∀ (rs : List ConvResult) (st : MergeState),
      (rs.foldl (fun st r =>
        if r.convertedCode = [] then st else processFragment st (extract r.convertedCode)) st).classes =
      (rs.flatMap (fragClassMatches extract)).foldl insClass st.classes := by
    intro rs
    induction rs with
    | nil => intro st; rfl
    | cons r rs ih =>
      intro st
      rw [List.foldl_cons, List.flatMap_cons, List.foldl_append]
      by_cases hc : r.convertedCode = []
      · rw [if_pos hc]
        simp only [fragClassMatches, if_pos hc, List.foldl_nil]
        exact ih st
      · rw [if_neg hc]
        simp only [fragClassMatches, if_neg hc]
        rw [ih (processFragment st (extract r.convertedCode))]
        rfl
  exact haux results emptyMergeState

theorem buildMergeState_imports (extract : List Char → Extraction)
    (results : List ConvResult) :
    (buildMergeState extract results).imports =
      (allImports extract results).foldl setAdd [] := by
  unfold buildMergeState allImports
  have haux : ∀ (rs : List ConvResult) (st : MergeState),
      (rs.foldl (fun st r =>
        if r.convertedCode = [] then st else processFragment st (extract r.convertedCode)) st).imports =
      (rs.flatMap (fun r =>
        if r.convertedCode = [] then [] else (extract r.convertedCode).imports)).foldl
        setAdd st.imports := by
    intro rs
    induction rs with
    | nil => intro st; rfl
    | cons r rs ih =>
      intro st
      rw [List.foldl_cons, List.flatMap_cons, List.foldl_append]
      by_cases hc : r.convertedCode = []
      · rw [if_pos hc]
        simp only [if_pos hc, List.foldl_nil]
        exact ih st
      · rw [if_neg hc]
        simp only [if_neg hc]
        rw [ih (processFragment st (extract r.convertedCode))]
        rfl
  exact haux results emptyMergeState

theorem nodup_foldl_setAdd {α : Type} [DecidableEq α] :
    ∀ (l : List α) (s : List α), s.Nodup → (l.foldl setAdd s).Nodup := by
  intro l
  induction l with
  | nil => intro s h; exact h
  | cons x xs ih =>
    intro s h
    rw [List.foldl_cons]
    apply ih
    unfold setAdd
    by_cases hx : x ∈ s
    · rw [if_pos hx]; exact h
    · rw [if_neg hx]
      rw [List.nodup_append]
      exact ⟨h, List.nodup_singleton x, by simp [List.Disjoint]; intro a ha hax; subst hax; exact hx ha⟩

theorem mem_foldl_setAdd {α : Type} [DecidableEq α] :
    ∀ (l : List α) (s : List α) (x : α), x ∈ l.foldl setAdd s ↔ x ∈ s ∨ x ∈ l := by
  intro l
  induction l with
  | nil => intro s x; simp
  | cons y ys ih =>
    intro s x
    rw [List.foldl_cons, ih]
    unfold setAdd
    by_cases hy : y ∈ s
    · rw [if_pos hy]
      simp only [List.mem_cons]
      constructor
      · rintro (h | h)
        · exact Or.inl h
        · exact Or.inr (Or.inr h)
      · rintro (h | rfl | h)
        · exact Or.inl h
        · exact Or.inl hy
        · exact Or.inr h
    · rw [if_neg hy]
      simp [List.mem_append, List.mem_cons, or_assoc, or_comm, or_left_comm]

theorem strLe_total (a : List Char) : ∀ b, strLe a b = true ∨ strLe b a = true := by
  induction a with
  | nil => intro b; left; rfl
  | cons x xs ih =>
    intro b
    match b with
    | [] => right; rfl
    | y :: ys =>
      simp only [strLe]
      by_cases h1 : x.toNat < y.toNat
      · left; rw [if_pos h1]
      · by_cases h2 : y.toNat < x.toNat
        · right; rw [if_pos h2]
        · rw [if_neg h1, if_neg h2, if_neg h2, if_neg h1]
          exact ih ys

theorem strLe_trans (a : List Char) : ∀ b c, strLe a b = true → strLe b c = true →
    strLe a c = true := by
  induction a with
  | nil => intro b c _ _; rfl
  | cons x xs ih =>
    intro b c
    match b, c with
    | [], _ => intro h _; simp [strLe] at h
    | _ :: _, [] => intro _ h; simp [strLe] at h
    | y :: ys, z :: zs =>
      intro h1 h2
      simp only [strLe] at h1 h2 ⊢
      by_cases hxy : x.toNat < y.toNat
      · by_cases hyz : y.toNat < z.toNat
        · rw [if_pos (by omega : x.toNat < z.toNat)]
        · by_cases hzy : z.toNat < y.toNat
          · rw [if_pos hzy] at h2
            rw [if_neg (by omega : ¬ y.toNat < z.toNat)] at h2
            exact absurd h2 (by simp)
          · rw [if_pos (by omega : x.toNat < z.toNat)]
      · by_cases hyx : y.toNat < x.toNat
        · rw [if_neg hxy, if_pos hyx] at h1
          exact absurd h1 (by simp)
        · rw [if_neg hxy, if_neg hyx] at h1
          by_cases hyz : y.toNat < z.toNat
          · rw [if_pos (by omega : x.toNat < z.toNat)]
          · by_cases hzy : z.toNat < y.toNat
            · rw [if_neg hyz, if_pos hzy] at h2
              exact absurd h2 (by simp)
            · rw [if_neg hyz, if_neg hzy] at h2
              rw [if_neg (by omega : ¬ x.toNat < z.toNat),
                if_neg (by omega : ¬ z.toNat < x.toNat)]
              exact ih ys zs h1 h2

theorem perm_insSorted (x : List Char) : ∀ l, (insSorted x l).Perm (x :: l) := by
  intro l
  induction l with
  | nil => exact List.Perm.refl _
  | cons y ys ih =>
    simp only [insSorted]
    by_cases h : strLe x y = true
    · rw [if_pos h]
    · rw [if_neg h]
      exact List.Perm.trans (List.Perm.cons y ih) (List.Perm.swap x y ys)

theorem perm_sortStrings (l : List (List Char)) : (sortStrings l).Perm l := by
  induction l with
  | nil => exact List.Perm.refl _
  | cons x xs ih =>
    show (insSorted x (sortStrings xs)).Perm (x :: xs)
    exact List.Perm.trans (perm_insSorted x (sortStrings xs)) (List.Perm.cons x ih)

theorem mem_insSorted {a x : List Char} {l : List (List Char)} :
    a ∈ insSorted x l ↔ a = x ∨ a ∈ l := by
  rw [(perm_insSorted x l).mem_iff]
  simp

theorem sorted_insSorted (x : List Char) :
    ∀ l, l.Pairwise (fun a b => strLe a b = true) →
      (insSorted x l).Pairwise (fun a b => strLe a b = true) := by
  intro l
  induction l with
  | nil => intro _; simp [insSorted]
  | cons y ys ih =>
    intro h
    rw [List.pairwise_cons] at h
    obtain ⟨hy, hys⟩ := h
    simp only [insSorted]
    by_cases hxy : strLe x y = true
    · rw [if_pos hxy]
      rw [List.pairwise_cons]
      constructor
      · intro z hz
        rcases List.mem_cons.mp hz with h1 | h1
        · subst h1; exact hxy
        · exact strLe_trans x y z hxy (hy z h1)
      · rw [List.pairwise_cons]
        exact ⟨hy, hys⟩
    · rw [if_neg hxy]
      rw [List.pairwise_cons]
      constructor
      · intro z hz
        rcases mem_insSorted.mp hz with h1 | h1
        · rw [h1]
          rcases strLe_total x y with h2 | h2
          · exact absurd h2 hxy
          · exact h2
        · exact hy z h1
      · exact ih hys

theorem sorted_sortStrings (l : List (List Char)) :
    (sortStrings l).Pairwise (fun a b => strLe a b = true) := by
  induction l with
  | nil => simp [sortStrings]
  | cons x xs ih =>
    show (insSorted x (sortStrings xs)).Pairwise _
    exact sorted_insSorted x (sortStrings xs) ih

/-- C6: for every single-element chunk list the pipeline returns exactly
the result of transforming that one chunk with the default empty
additional context, independently of the structure-planner outcome and
of the merge parameters (both Structure Planner and Structural Merger
are bypassed); and `should_chunk_code` triggers chunking exactly when
the line count exceeds the threshold. -/
theorem convert_code_chunks_single_bypass :
    (∀ (tl : TL) (convertSingle : List Char → String → ConvResult)
       (structureResult : StructureInfo) (oopMerge : Except String (List Char))
       (polish : List Char → List Char) (c : List Char),
       convert_code_chunks tl convertSingle structureResult oopMerge polish [c] =
         convertSingle c "") ∧
    (∀ (code : List Char) (t : Nat),
       should_chunk_code code t = true ↔ t < (pySplitlines code).length) := by
  constructor
  · intro tl f st om polish c
    rfl
  · intro code t
    simp [should_chunk_code]

/-- C10: for every non-empty fragment-result list, the merged result's
`databaseUsed` flag is the disjunction of the fragments' flags,
whatever the structured-merge outcome (including the exception/fallback
path) and whatever the polish pass does. -/
theorem merge_databaseUsed_disjunction (tl : TL) (oopMerge : Except String (List Char))
    (polish : List Char → List Char) (results : List ConvResult)
    (hne : results ≠ []) :
    (merge_conversion_results tl oopMerge polish results).databaseUsed =
      results.any (fun r => r.databaseUsed) := by
  unfold merge_conversion_results
  rw [if_neg hne]

/-- Witness for C10 at a concrete fragment list. -/
theorem merge_databaseUsed_disjunction_witness :
    (merge_conversion_results .java (.ok []) id mergeWitnessResults).databaseUsed =
      mergeWitnessResults.any (fun r => r.databaseUsed) :=
  merge_databaseUsed_disjunction .java (.ok []) id mergeWitnessResults (by decide)

/-- C1: when the structured (OOP) merge raises (modelled by the
`.error e` outcome, caught at lines 782-785), `_merge_conversion_results`
still returns: the merge phase produces exactly the naive concatenation
of the fragments' non-empty stripped code blocks separated by labeled
divider comments (`naiveConcat`, proved equal to `_fallback_merge`), the
final code being that text under the subsequent polish pass, and the
merge-failure entry is recorded in the result's issue list. -/
theorem merge_fallback_on_exception (tl : TL) (e : String)
    (polish : List Char → List Char) (results : List ConvResult)
    (hne : results ≠ []) :
    (merge_conversion_results tl (.error e) polish results).convertedCode =
      polish (naiveConcat results) ∧
    mergeFailureIssue e ∈
      (merge_conversion_results tl (.error e) polish results).potentialIssues := by
  unfold merge_conversion_results
  rw [if_neg hne]
  constructor
  · show polish (fallback_merge results) = polish (naiveConcat results)
    rw [fallback_merge_eq_naiveConcat]
  · exact List.mem_append_left _ (List.mem_append_left _ (List.mem_cons_self _ _))

/-- Witness for C1 at a concrete fragment list with a whitespace-only
middle chunk (divider numbering skips it). -/
theorem merge_fallback_on_exception_witness :
    (merge_conversion_results .java (.error "boom") id mergeWitnessResults).convertedCode =
      id (naiveConcat mergeWitnessResults) ∧
    mergeFailureIssue "boom" ∈
      (merge_conversion_results .java (.error "boom") id mergeWitnessResults).potentialIssues :=
  merge_fallback_on_exception .java "boom" id mergeWitnessResults (by decide)

/-- C5 counterexample: a successful external call returning malformed,
non-blueprint text is parsed best-effort rather than replaced by the
default Blueprint — here the class collection is non-empty, refuting
the claim that every failure mode including "malformed text" yields the
default Blueprint with empty collections. -/
theorem get_code_structure_malformed_not_default :
    (get_code_structure .java
      (.ok "garbage !! class Foo \x7b\x7b\x7b garbage".data)).classes ≠ [] := by
  decide

/-- C5 (amended): the structure-planning step never raises to its
caller: when the external call raises, the result is exactly the
default structure dictionary; when the call returns empty or
whitespace-only text, the parsed dictionary has empty class, interface
and pattern collections, no package, `database_access = False` and
`exception_strategy = "standard"`.  (Malformed non-empty text is parsed
best-effort and may populate fields.) -/
theorem get_code_structure_failure_default (tl : TL) :
    (∀ e : String, get_code_structure tl (.error e) = defaultStructureInfo) ∧
    (∀ raw : List Char, pyStrip raw = [] →
      (get_code_structure tl (.ok raw)).classes = [] ∧
      (get_code_structure tl (.ok raw)).interfaces = [] ∧
      (get_code_structure tl (.ok raw)).patterns = [] ∧
      (get_code_structure tl (.ok raw)).package = none ∧
      (get_code_structure tl (.ok raw)).database_access = false ∧
      (get_code_structure tl (.ok raw)).exception_strategy = "standard") := by
  constructor
  · intro e; rfl
  · intro raw hraw
    unfold get_code_structure
    dsimp only []
    rw [hraw]
    cases tl <;> exact ⟨rfl, rfl, by decide, rfl, by decide, by decide⟩

/-- Witness for the amended C5 at a concrete raising call and a concrete
whitespace-only response. -/
theorem get_code_structure_failure_default_witness :
    get_code_structure .java (.error "connection reset") = defaultStructureInfo ∧
    ((get_code_structure .java (.ok "  ".data)).classes = [] ∧
     (get_code_structure .java (.ok "  ".data)).interfaces = [] ∧
     (get_code_structure .java (.ok "  ".data)).patterns = [] ∧
     (get_code_structure .java (.ok "  ".data)).package = none ∧
     (get_code_structure .java (.ok "  ".data)).database_access = false ∧
     (get_code_structure .java (.ok "  ".data)).exception_strategy = "standard") :=
  ⟨(get_code_structure_failure_default .java).1 "connection reset",
   (get_code_structure_failure_default .java).2 "  ".data (by decide)⟩

theorem splitAtSubF_single_isSome {c : Char} :
    ∀ (fuel : Nat) (cs : List Char), cs.length ≤ fuel → c ∈ cs →
      (splitAtSubF [c] fuel cs).isSome := by
  intro fuel
  induction fuel with
  | zero =>
    intro cs hlen hmem
    have : cs = [] := List.length_eq_zero.mp (Nat.le_zero.mp hlen)
    subst this
    simp at hmem
  | succ fuel ih =>
    intro cs hlen hmem
    match cs with
    | [] => simp at hmem
    | x :: cs' =>
      simp only [splitAtSubF]
      by_cases hx : ([c]).isPrefixOf (x :: cs')
      · rw [if_pos hx]; rfl
      · rw [if_neg hx]
        have hxc : x ≠ c := by
          intro he
          subst he
          exact hx (by simp [List.isPrefixOf])
        have hmem' : c ∈ cs' := by
          rcases List.mem_cons.mp hmem with h | h
          · exact absurd h.symm hxc
          · exact h
        have hlen' : cs'.length ≤ fuel := by
          simp only [List.length_cons] at hlen; omega
        have := ih cs' hlen' hmem'
        cases hsp : splitAtSubF [c] fuel cs' with
        | none => rw [hsp] at this; simp at this
        | some pr => rfl

theorem mainContentLine_isSome {text : List Char} (h : lbrace ∈ text) :
    ∃ content, mainContentLine text = some content := by
  unfold mainContentLine
  have := splitAtSubF_single_isSome text.length text le_rfl h
  unfold splitAtSub
  cases hsp : splitAtSubF [lbrace] text.length text with
  | none => rw [hsp] at this; simp at this
  | some pr => exact ⟨_, rfl⟩

/-- C3 counterexample: a truncated response with the opening object
marker and the known field name `"convertedCode"` but no closing marker
(and no second field name) gets NO truncation salvage: the salvage
chain falls through to the last-resort dictionary, whose issues are
exactly ["JSON extraction failed"] and do not include the truncation
message (the parse parameter is `none`, as `json.loads` fails on this
invalid JSON). -/
theorem extract_json_truncated_single_field_no_salvage :
    extract_json_from_response (fun _ => (none : Option ConvResult))
        "\x7b\"convertedCode\": \"abc".data =
      ExtractionResult.extractionFailed "Extraction failed - see raw response".data
        "JSON parsing failed. The model response may have been truncated.".data
        ["JSON extraction failed"] "\x7b\"convertedCode\": \"abc".data ∧
    (truncMsg ∈ (["JSON extraction failed"] : List String) → False) := by
  constructor
  · decide
  · decide

/-- C3 (amended): the truncation salvage is implemented by app.py's
`extract_json_from_response` and requires BOTH known field names, not
just one: for every response text that `json.loads` cannot parse, with
no fenced block, strictly more opening than closing object markers, and
both `"convertedCode"` and `"conversionNotes"` present, the salvage
regex-extracts the (complete or partial) field values and the resulting
dictionary's issues are exactly
["Response was truncated - some content may be missing"].  The
chunk-converter's own chain (code_converter.py lines 624-674) has no
truncation salvage at all — see the counterexample. -/
theorem extract_json_truncation_salvage {α : Type}
    (jsonParse : List Char → Option α) (text : List Char)
    (hparse : jsonParse text = none)
    (hfence : fencedBlocks text = [])
    (hcnt : text.count rbrace < text.count lbrace)
    (hcode : containsSub codeFieldLit text = true)
    (hnotes : containsSub notesFieldLit text = true) :
    ∃ content, mainContentLine text = some content ∧
      extract_json_from_response jsonParse text =
        ExtractionResult.truncationSalvage (unescapeCode (truncCode content))
          (truncNotes content) [truncMsg] := by
  have hmem : lbrace ∈ text := by
    have h0 : 0 < text.count lbrace := by omega
    exact List.count_pos_iff.mp h0
  obtain ⟨content, hmain⟩ := mainContentLine_isSome hmem
  refine ⟨content, hmain, ?_⟩
  unfold extract_json_from_response
  rw [hparse, hfence]
  show (if text.count rbrace < text.count lbrace ∧
           containsSub codeFieldLit text = true ∧
           containsSub notesFieldLit text = true then _ else _) = _
  rw [if_pos ⟨hcnt, hcode, hnotes⟩, hmain]

/-- Witness for the amended C3: a response truncated inside
`convertedCode`, with `conversionNotes` complete, receives the salvage
dictionary with the truncation message. -/
theorem extract_json_truncation_salvage_witness :
    ∃ content,
      mainContentLine "\x7b\"conversionNotes\": \"done\", \"convertedCode\": \"int x".data =
        some content ∧
      extract_json_from_response (fun _ => (none : Option ConvResult))
          "\x7b\"conversionNotes\": \"done\", \"convertedCode\": \"int x".data =
        ExtractionResult.truncationSalvage (unescapeCode (truncCode content))
          (truncNotes content) [truncMsg] :=
  extract_json_truncation_salvage (fun _ => (none : Option ConvResult))
    "\x7b\"conversionNotes\": \"done\", \"convertedCode\": \"int x".data
    rfl (by decide) (by decide) (by decide) (by decide)

theorem count_appendMissingBraces (code : List Char) :
    (appendMissingBraces code).count lbrace = code.count lbrace ∧
    (appendMissingBraces code).count rbrace =
      code.count rbrace + (code.count lbrace - code.count rbrace) := by
  unfold appendMissingBraces
  by_cases hc : code.count rbrace < code.count lbrace
  · rw [if_pos hc]
    constructor
    · rw [List.count_append, List.count_cons, List.count_replicate]
      simp +decide
    · rw [List.count_append, List.count_cons, List.count_replicate]
      simp +decide
  · rw [if_neg hc]
    constructor
    · rfl
    · omega

theorem polish_guard_false {code : List Char} (h : 0 < code.count lbrace) :
    ¬ (code = [] ∨ pyStrip code = []) := by
  rintro (h1 | h1)
  · subst h1; simp at h
  · have h2 := count_pyStrip pyIsSpace_lbrace code
    rw [h1] at h2
    simp at h2
    omega

/-- C4 counterexample: `"int a;\ncatch ({) {}"` has 2 opening and 1
closing delimiter (deficit d = 1), yet the automatically repaired text
has a nonzero brace mismatch: the empty-handler rewrite duplicates the
`{` inside the caught-parameter text, so post-repair validation does
not report zero mismatch. -/
theorem polish_code_auto_mismatch_counterexample :
    "int a;\ncatch (\x7b) \x7b\x7d".data.count lbrace = 2 ∧
    "int a;\ncatch (\x7b) \x7b\x7d".data.count rbrace = 1 ∧
    braceMismatchCount
      (polish_code_auto .java "int a;\ncatch (\x7b) \x7b\x7d".data) ≠ 0 := by
  refine ⟨by decide, by decide, by decide⟩

/-- C4 (amended): for every code string whose opening delimiters exceed
closing ones by d > 0 and whose empty-handler matches in the
brace-appended text have caught-parameter texts free of delimiter
characters, the automatic repair appends exactly d closing delimiters:
the repaired text keeps the opening count, gains exactly d closers, has
zero brace mismatch, and `_quick_validate` on it reports no
mismatched-braces entry (only, possibly, the empty-catch finding). -/
theorem polish_code_auto_fixes_deficit (tl : TL) (code : List Char) (d : Nat)
    (hd : 0 < d)
    (hcnt : code.count lbrace = code.count rbrace + d)
    (hps : ∀ p ∈ subParams (appendMissingBraces code),
      p.count lbrace = 0 ∧ p.count rbrace = 0) :
    (polish_code_auto tl code).count lbrace = code.count lbrace ∧
    (polish_code_auto tl code).count rbrace = code.count rbrace + d ∧
    braceMismatchCount (polish_code_auto tl code) = 0 ∧
    quick_validate (polish_code_auto tl code) =
      (if 0 < countEmptyCatch (polish_code_auto tl code)
       then [emptyCatchesMsg (countEmptyCatch (polish_code_auto tl code))] else []) := by
  have hg := polish_guard_false (show 0 < code.count lbrace by omega)
  have hpoly : polish_code_auto tl code =
      reindent (subEmptyCatch tl (appendMissingBraces code)) := by
    unfold polish_code_auto
    rw [if_neg hg]
  have hsl := count_subEmptyCatch tl (Or.inl rfl) (appendMissingBraces code) hps
  have hsr := count_subEmptyCatch tl (Or.inr rfl) (appendMissingBraces code) hps
  have happ := count_appendMissingBraces code
  have hfl : (polish_code_auto tl code).count lbrace = code.count lbrace := by
    rw [hpoly, count_reindent pyIsSpace_lbrace (by decide), hsl, happ.1]
  have hfr : (polish_code_auto tl code).count rbrace = code.count rbrace + d := by
    rw [hpoly, count_reindent pyIsSpace_rbrace (by decide), hsr, happ.2]
    omega
  refine ⟨hfl, hfr, ?_, ?_⟩
  · unfold braceMismatchCount
    omega
  · unfold quick_validate
    rw [if_neg (by omega : ¬ (polish_code_auto tl code).count lbrace ≠
      (polish_code_auto tl code).count rbrace)]
    rfl

/-- Witness for the amended C4: the claim's instance — code with 5
opening and 3 closing delimiters gains exactly 2 closing delimiters and
validates with zero mismatch. -/
theorem polish_code_auto_fixes_deficit_witness :
    (polish_code_auto .java "A\x7b B\x7b C\x7b D\x7b E\x7b\n\x7d\n\x7d\n\x7d".data).count lbrace =
      "A\x7b B\x7b C\x7b D\x7b E\x7b\n\x7d\n\x7d\n\x7d".data.count lbrace ∧
    (polish_code_auto .java "A\x7b B\x7b C\x7b D\x7b E\x7b\n\x7d\n\x7d\n\x7d".data).count rbrace =
      "A\x7b B\x7b C\x7b D\x7b E\x7b\n\x7d\n\x7d\n\x7d".data.count rbrace + 2 ∧
    braceMismatchCount
      (polish_code_auto .java "A\x7b B\x7b C\x7b D\x7b E\x7b\n\x7d\n\x7d\n\x7d".data) = 0 ∧
    quick_validate (polish_code_auto .java "A\x7b B\x7b C\x7b D\x7b E\x7b\n\x7d\n\x7d\n\x7d".data) =
      (if 0 < countEmptyCatch
          (polish_code_auto .java "A\x7b B\x7b C\x7b D\x7b E\x7b\n\x7d\n\x7d\n\x7d".data)
       then [emptyCatchesMsg (countEmptyCatch
          (polish_code_auto .java "A\x7b B\x7b C\x7b D\x7b E\x7b\n\x7d\n\x7d\n\x7d".data))]
       else []) :=
  polish_code_auto_fixes_deficit .java "A\x7b B\x7b C\x7b D\x7b E\x7b\n\x7d\n\x7d\n\x7d".data 2
    (by decide) (by decide) (by decide)

/-- C9 counterexample: `"{\ncatch (}) {}"` is brace-balanced (mismatch
0), but after the automatic repair the mismatch is nonzero: the
empty-handler rewrite duplicates the `}` inside the caught-parameter
text, so `validate(repair(code))` reports a higher brace-mismatch count
than `validate(code)`. -/
theorem validate_repair_mismatch_counterexample :
    braceMismatchCount "\x7b\ncatch (\x7d) \x7b\x7d".data = 0 ∧
    ¬ (braceMismatchCount
        (polish_code_auto .java "\x7b\ncatch (\x7d) \x7b\x7d".data) ≤
       braceMismatchCount "\x7b\ncatch (\x7d) \x7b\x7d".data) := by
  refine ⟨by decide, by decide⟩

/-- C9 (amended): for every code string whose empty-handler matches in
the brace-appended text have caught-parameter texts free of delimiter
characters, the brace-mismatch count reported by validation on the
repaired text never exceeds the one reported on the original. -/
theorem validate_repair_non_increasing (tl : TL) (code : List Char)
    (hps : ∀ p ∈ subParams (appendMissingBraces code),
      p.count lbrace = 0 ∧ p.count rbrace = 0) :
    braceMismatchCount (polish_code_auto tl code) ≤ braceMismatchCount code := by
  by_cases hg : code = [] ∨ pyStrip code = []
  · unfold polish_code_auto
    rw [if_pos hg]
  · have hpoly : polish_code_auto tl code =
        reindent (subEmptyCatch tl (appendMissingBraces code)) := by
      unfold polish_code_auto
      rw [if_neg hg]
    have hsl := count_subEmptyCatch tl (Or.inl rfl) (appendMissingBraces code) hps
    have hsr := count_subEmptyCatch tl (Or.inr rfl) (appendMissingBraces code) hps
    have happ := count_appendMissingBraces code
    unfold braceMismatchCount
    rw [hpoly, count_reindent pyIsSpace_lbrace (by decide),
      count_reindent pyIsSpace_rbrace (by decide), hsl, hsr, happ.1, happ.2]
    omega

/-- Witness for the amended C9 at a concrete closing-heavy string. -/
theorem validate_repair_non_increasing_witness :
    braceMismatchCount (polish_code_auto .java "\x7d\x7d int x;".data) ≤
      braceMismatchCount "\x7d\x7d int x;".data :=
  validate_repair_non_increasing .java "\x7d\x7d int x;".data (by decide)

theorem appendMissingBraces_id {cs : List Char}
    (h : ¬ cs.count rbrace < cs.count lbrace) : appendMissingBraces cs = cs := by
  unfold appendMissingBraces
  rw [if_neg h]

/-- C8 counterexample: repairing `"catch ({) {}"` twice differs from
repairing it once — the first pass balances the braces and fills the
empty handler, but the fill duplicates the `{` of the caught-parameter
text, so the second pass appends another closing delimiter. -/
theorem repair_not_idempotent_counterexample :
    polish_code_auto .java (polish_code_auto .java "catch (\x7b) \x7b\x7d".data) ≠
      polish_code_auto .java "catch (\x7b) \x7b\x7d".data := by
  decide

/-- C8 (amended): the automatic repair is idempotent on inputs whose
empty-handler rewrite has nothing to rewrite — when the empty-catch
substitution leaves both the brace-appended text and its re-indented
form unchanged, repairing twice equals repairing once (after the first
pass the braces are balanced or closing-heavy and the indentation
re-flow is stable). -/
theorem repair_idempotent_when_no_rewrite (tl : TL) (code : List Char)
    (h1 : subEmptyCatch tl (appendMissingBraces code) = appendMissingBraces code)
    (h2 : subEmptyCatch tl (reindent (appendMissingBraces code)) =
          reindent (appendMissingBraces code)) :
    polish_code_auto tl (polish_code_auto tl code) = polish_code_auto tl code := by
  by_cases hg : code = [] ∨ pyStrip code = []
  · have hpc : polish_code_auto tl code = code := by
      unfold polish_code_auto
      rw [if_pos hg]
    rw [hpc]
    exact hpc
  · have hpc : polish_code_auto tl code = reindent (appendMissingBraces code) := by
      unfold polish_code_auto
      rw [if_neg hg, h1]
    rw [hpc]
    by_cases hg2 : reindent (appendMissingBraces code) = [] ∨
        pyStrip (reindent (appendMissingBraces code)) = []
    · unfold polish_code_auto
      rw [if_pos hg2]
    · unfold polish_code_auto
      rw [if_neg hg2]
      have hcY : ¬ ((reindent (appendMissingBraces code)).count rbrace <
          (reindent (appendMissingBraces code)).count lbrace) := by
        rw [count_reindent pyIsSpace_rbrace (by decide),
          count_reindent pyIsSpace_lbrace (by decide)]
        have := count_appendMissingBraces code
        omega
      rw [appendMissingBraces_id hcY, h2, reindent_idem]

/-- Witness for the amended C8 at a concrete catch-free string with a
brace deficit. -/
theorem repair_idempotent_when_no_rewrite_witness :
    polish_code_auto .java (polish_code_auto .java "class A \x7b\nint x;".data) =
      polish_code_auto .java "class A \x7b\nint x;".data :=
  repair_idempotent_when_no_rewrite .java "class A \x7b\nint x;".data
    (by decide) (by decide)

theorem contribsFor_ne_nil_iff (name : List Char)
    (ts : List (List Char × List Char × List Char)) :
    contribsFor name ts ≠ [] ↔ name ∈ ts.map (fun t => t.1) := by
  unfold contribsFor
  constructor
  · intro h
    match hf : ts.filter (fun t => decide (t.1 = name)) with
    | [] => exact absurd hf h
    | t :: rest =>
      have ht : t ∈ ts.filter (fun t => decide (t.1 = name)) := by
        rw [hf]; exact List.mem_cons_self _ _
      have := List.mem_filter.mp ht
      rcases this with ⟨hmem, hdec⟩
      have : t.1 = name := of_decide_eq_true hdec
      exact this ▸ List.mem_map_of_mem (fun t => t.1) hmem
  · intro h hf
    rcases List.mem_map.mp h with ⟨t, hmem, ht⟩
    have : t ∈ ts.filter (fun t => decide (t.1 = name)) :=
      List.mem_filter.mpr ⟨hmem, decide_eq_true ht⟩
    rw [hf] at this
    exact absurd this (List.not_mem_nil t)

/-- C2: in the class dictionary built by `_merge_oop_code`'s extraction
loop, every class name appears at most once (exactly one header per
name in the assembled output), a name is present iff some fragment
declares it, and its entry carries the signature of the first
contribution and the `"\n\n"`-joined concatenation of the bodies
contributed by each fragment for that name, in fragment (chunk) order. -/
theorem merge_oop_class_merging (extract : List Char → Extraction)
    (results : List ConvResult) (name : List Char) :
    (keysOf (buildMergeState extract results).classes).Nodup ∧
    (name ∈ keysOf (buildMergeState extract results).classes ↔
      contribsFor name (allClassMatches extract results) ≠ []) ∧
    (∀ info : ClassInfo,
      lookupKey name (buildMergeState extract results).classes = some info →
      ∃ t rest, contribsFor name (allClassMatches extract results) = t :: rest ∧
        info.signature = t.2.1 ∧
        info.content = t.2.2 ++ rest.flatMap (fun t2 => nnSep ++ t2.2.2)) := by
  have hcls := buildMergeState_classes extract results
  have hkeys := keysOf_foldl_insClass (allClassMatches extract results) []
  refine ⟨?_, ?_, ?_⟩
  · rw [hcls, hkeys]
    show ((keysOf []) ++ _).Nodup
    rw [show keysOf ([] : List (List Char × ClassInfo)) = [] from rfl,
      List.nil_append]
    exact nodup_dedupKeepFirstAux _ _
  · rw [hcls, hkeys]
    rw [show keysOf ([] : List (List Char × ClassInfo)) = [] from rfl,
      List.nil_append]
    rw [mem_dedupKeepFirstAux]
    rw [contribsFor_ne_nil_iff]
    simp
  · intro info hinfo
    rw [hcls, lookupKey_foldl_insClass] at hinfo
    rw [show lookupKey name ([] : List (List Char × ClassInfo)) = none from rfl] at hinfo
    match hf : contribsFor name (allClassMatches extract results) with
    | [] =>
      rw [hf] at hinfo
      exact absurd hinfo (by simp)
    | t :: rest =>
      rw [hf] at hinfo
      simp only [Option.some.injEq] at hinfo
      exact ⟨t, rest, rfl, by rw [← hinfo], by rw [← hinfo]⟩

/-- Witness for C2: Scenario D — three chunks each declaring class
`Order`; the single dictionary entry keeps the first signature and the
chunk-ordered concatenation `int a;\n\nint b;\n\nint c;`. -/
theorem merge_oop_class_merging_witness :
    ∃ t rest,
      contribsFor "Order".data (allClassMatches scenarioDExtract scenarioDResults) =
        t :: rest ∧
      (⟨"public class Order".data, "int a;\n\nint b;\n\nint c;".data⟩ : ClassInfo).signature
        = t.2.1 ∧
      (⟨"public class Order".data, "int a;\n\nint b;\n\nint c;".data⟩ : ClassInfo).content
        = t.2.2 ++ rest.flatMap (fun t2 => nnSep ++ t2.2.2) :=
  (merge_oop_class_merging scenarioDExtract scenarioDResults "Order".data).2.2
    ⟨"public class Order".data, "int a;\n\nint b;\n\nint c;".data⟩ (by decide)

/-- C7: the structurally merged output is assembled in exactly this
order: namespace/package declaration, sorted imports with duplicates
collapsed, sorted constants, sorted fields, classes in first-seen order
with their merged bodies, free-standing routines, residual blocks.  The
assembled import list is sorted, duplicate-free and contains exactly
the imports contributed by the fragments; constants and fields are
sorted; the class section follows the first-seen order of declared
names. -/
theorem merge_oop_assembly_order (extract : List Char → Extraction)
    (results : List ConvResult) :
    (merge_oop_code extract results =
      (let st := buildMergeState extract results
       let lines := pkgSection st.package ++ importsSection st.imports ++
         constantsSection st.constants ++ fieldsSection st.fields ++
         classesSection st.classes ++ methodsSection st.methods ++
         otherSection st.other
       if lines = [] then noCodeMsg else joinNl lines)) ∧
    (sortStrings (buildMergeState extract results).imports).Pairwise
      (fun a b => strLe a b = true) ∧
    (sortStrings (buildMergeState extract results).imports).Nodup ∧
    (∀ x, x ∈ sortStrings (buildMergeState extract results).imports ↔
      x ∈ allImports extract results) ∧
    (sortStrings (buildMergeState extract results).constants).Pairwise
      (fun a b => strLe a b = true) ∧
    (sortStrings (buildMergeState extract results).fields).Pairwise
      (fun a b => strLe a b = true) ∧
    keysOf (buildMergeState extract results).classes =
      dedupKeepFirst ((allClassMatches extract results).map (fun t => t.1)) := by
  refine ⟨rfl, sorted_sortStrings _, ?_, ?_, sorted_sortStrings _, sorted_sortStrings _, ?_⟩
  · rw [(perm_sortStrings _).nodup_iff]
    rw [buildMergeState_imports]
    exact nodup_foldl_setAdd _ [] List.nodup_nil
  · intro x
    rw [(perm_sortStrings _).mem_iff, buildMergeState_imports, mem_foldl_setAdd]
    simp
  · rw [buildMergeState_classes, keysOf_foldl_insClass]
    rw [show keysOf ([] : List (List Char × ClassInfo)) = [] from rfl,
      List.nil_append]
    rfl
